import Mathlib

/-!
Verification of the photo-series detection and curation pipeline.

Python strings are modelled as lists of characters (the type Str below).
Each definition is a direct shallow embedding of a function from the
repository sources (photo_series_detector.py, visual_reviewer.py,
db_maintenance.py); the doc comment of each definition names the source
function it embeds.
-/

set_option maxRecDepth 10000

abbrev Str := List Char

/-- Whitespace characters stripped by the Python str.strip method. -/
def isPySpace (c : Char) : Bool :=
  c = ' ' || c = '\t' || c = '\n' || c = '\x0d' || c = '\x0b' || c = '\x0c'

/-- Python str.strip: drop whitespace from both ends. -/
def pyStrip (s : Str) : Str :=
  ((s.dropWhile isPySpace).reverse.dropWhile isPySpace).reverse

/-- Python str.lower (ASCII case folding suffices for the repository data). -/
def pyLower (s : Str) : Str := s.map Char.toLower

/-- Python substring membership test, needle in haystack. -/
def strContains (needle hay : Str) : Bool :=
  match hay with
  | [] => needle.isEmpty
  | _ :: t => needle.isPrefixOf hay || strContains needle t

/-- Python str.startswith with a tuple of alternatives. -/
def startsWithAny (s : Str) (alts : List Str) : Bool :=
  alts.any (fun a => a.isPrefixOf s)

/-- Python str.split on a single separator character; segments may be empty. -/
def pySplit (sep : Char) (s : Str) : List Str :=
  match s with
  | [] => [[]]
  | c :: t =>
    let rest := pySplit sep t
    if c = sep then [] :: rest
    else match rest with
      | [] => [[c]]
      | r :: rs => (c :: r) :: rs

/-- Python sep.join of a list of segments. -/
def pyJoin (sep : Char) : List Str → Str
  | [] => []
  | [s] => s
  | s :: t => s ++ sep :: pyJoin sep t

/-- Python str.isdigit: nonempty and all characters are digits. -/
def pyIsDigit (s : Str) : Bool := !s.isEmpty && s.all Char.isDigit

/-- Python filename.rsplit with dot and maxsplit one, first component:
everything before the last dot, or the whole string when no dot occurs. -/
def stemBeforeLastDot (s : Str) : Str :=
  let parts := pySplit '.' s
  if parts.length ≤ 1 then s else pyJoin '.' parts.dropLast

/-- Python os.path.basename for POSIX paths: the part after the last slash. -/
def pyBasename (s : Str) : Str := (pySplit '/' s).getLastD []

/-- Python str.endswith for one suffix. -/
def pyEndsWith (suf s : Str) : Bool := suf.isSuffixOf s

/-- Decimal value of a digit string, as Python int() on an isdigit string. -/
def digitsToNat (s : Str) : Nat :=
  s.foldl (fun n c => 10 * n + (c.toNat - '0'.toNat)) 0

/-- The rightmost underscore-separated segment that is all digits, scanning
parts from the end, as the loops in extract_number and extract_image_id do. -/
def lastDigitPart (parts : List Str) : Option Str :=
  match parts with
  | [] => none
  | p :: t =>
    match lastDigitPart t with
    | some d => some d
    | none => if pyIsDigit p then some p else none

/-- extract_number from photo_series_detector.find_image_series (the same
helper is repeated in visual_reviewer): basename, drop the extension, split
on underscores, take the rightmost all-digit part as a number, else 0. -/
def extract_number (path : Str) : Nat :=
  let filename := pyBasename path
  let nameWithoutExt := stemBeforeLastDot filename
  match lastDigitPart (pySplit '_' nameWithoutExt) with
  | some d => digitsToNat d
  | none => 0

/-- PhotoSeriesDetector.extract_image_id: for .jpg or .jpeg filenames take
the rightmost all-digit underscore part as an underscore-prefixed id,
otherwise fall back to an img_(index+1) id. -/
def extract_image_id (filename : Str) (fallbackIndex : Nat) : Str :=
  if pyEndsWith ".jpg".toList filename || pyEndsWith ".jpeg".toList filename then
    let nameWithoutExt := stemBeforeLastDot filename
    match lastDigitPart (pySplit '_' nameWithoutExt) with
    | some d => '_' :: d
    | none => "img_".toList ++ (Nat.repr (fallbackIndex + 1)).toList
  else
    "img_".toList ++ (Nat.repr (fallbackIndex + 1)).toList

/-!
A small backtracking regular-expression engine with Python re semantics:
matching is anchored at the start (re.match), ordered alternatives, greedy
repetition tries longer first, lazy repetition tries shorter first, and the
groups of the first overall match are reported.  The three patterns of
find_image_series are transliterated below as abstract syntax trees.
-/

inductive RE where
  | eps : RE
  | lit : Char → RE
  | cls : (Char → Bool) → RE
  | cat : RE → RE → RE
  | star : Bool → RE → RE
  | grp : Nat → RE → RE

abbrev ReGroups := List (Nat × Str)

/-- Record a captured group, replacing any previous capture of the same
group number. -/
def setGroup (g : ReGroups) (n : Nat) (v : Str) : ReGroups :=
  match g with
  | [] => [(n, v)]
  | (m, w) :: t => if m = n then (n, v) :: t else (m, w) :: setGroup t n v

/-- Look up a captured group. -/
def getGroup (g : ReGroups) (n : Nat) : Option Str :=
  match g with
  | [] => none
  | (m, w) :: t => if m = n then some w else getGroup t n

/-- Backtracking matcher in continuation-passing style.  The fuel bounds
call depth only; sibling alternatives reuse the same fuel. -/
def reRun (fuel : Nat) (r : RE) (s : Str) (g : ReGroups)
    (k : Str → ReGroups → Option ReGroups) : Option ReGroups :=
  match fuel with
  | 0 => none
  | fuel + 1 =>
    match r with
    | .eps => k s g
    | .lit c =>
      match s with
      | [] => none
      | c' :: t => if c' = c then k t g else none
    | .cls p =>
      match s with
      | [] => none
      | c' :: t => if p c' then k t g else none
    | .cat a b => reRun fuel a s g (fun s' g' => reRun fuel b s' g' k)
    | .star greedy a =>
      if greedy then
        match reRun fuel a s g (fun s' g' =>
          if s'.length < s.length then reRun fuel (.star greedy a) s' g' k else none) with
        | some res => some res
        | none => k s g
      else
        match k s g with
        | some res => some res
        | none =>
          reRun fuel a s g (fun s' g' =>
            if s'.length < s.length then reRun fuel (.star greedy a) s' g' k else none)
    | .grp n a => reRun fuel a s g (fun s' g' =>
        k s' (setGroup g' n (s.take (s.length - s'.length))))

/-- Python re.match: anchored at the start, a match may leave a suffix
unconsumed; returns the captured groups of the first match found. -/
def reMatch (r : RE) (s : Str) : Option ReGroups :=
  reRun 4000 r s [] (fun _ g => some g)

def reDigitC : RE := RE.cls Char.isDigit

def reWordC : RE := RE.cls (fun c => c.isAlphanum || c = '_')

def reAnyC : RE := RE.cls (fun c => c ≠ '\n')

def reCat (l : List RE) : RE := l.foldr RE.cat RE.eps

def reRep (n : Nat) (r : RE) : RE := reCat (List.replicate n r)

def rePlusG (r : RE) : RE := RE.cat r (RE.star true r)

def rePlusL (r : RE) : RE := RE.cat r (RE.star false r)

/-- The shared timestamp head of patterns 1 and 2: four digits then five
two-digit fields, all underscore-separated, with a trailing underscore. -/
def tsRE : RE := reCat [reRep 4 reDigitC, RE.lit '_', reRep 2 reDigitC, RE.lit '_',
  reRep 2 reDigitC, RE.lit '_', reRep 2 reDigitC, RE.lit '_', reRep 2 reDigitC,
  RE.lit '_', reRep 2 reDigitC, RE.lit '_']

/-- Pattern 1 of find_image_series: timestamp and lazy word prefix, the
letters DN, a word run, a group of two or more underscores, digits, a dot
and the extension. -/
def pattern1 : RE := reCat [RE.grp 1 (RE.cat tsRE (rePlusL reWordC)),
  RE.lit 'D', RE.lit 'N', rePlusG reWordC,
  RE.grp 2 (RE.cat (RE.lit '_') (rePlusG (RE.lit '_'))),
  RE.grp 3 (rePlusG reDigitC), RE.lit '.', RE.grp 4 (rePlusG reAnyC)]

/-- Pattern 2 of find_image_series: timestamp and lazy word-or-dot prefix,
DN, a word run, a caption group (underscore, a non-underscore run, then
lazily repeated double-underscore segments), an underscore, digits, a dot
and the extension. -/
def pattern2 : RE := reCat [RE.grp 1 (RE.cat tsRE (rePlusL (RE.cls (fun c => c.isAlphanum || c = '_' || c = '.')))),
  RE.lit 'D', RE.lit 'N', rePlusG reWordC,
  RE.grp 2 (reCat [RE.lit '_', rePlusG (RE.cls (fun c => c ≠ '_')),
    RE.star false (reCat [RE.lit '_', RE.lit '_', rePlusG (RE.cls (fun c => c ≠ '_'))])]),
  RE.lit '_', RE.grp 3 (rePlusG reDigitC), RE.lit '.', RE.grp 4 (rePlusG reAnyC)]

/-- Pattern 3 of find_image_series, the generic fallback: everything
before the last underscore-digits, a dot and the extension. -/
def pattern3 : RE := reCat [RE.grp 1 (rePlusG reAnyC), RE.lit '_',
  RE.grp 2 (rePlusG reDigitC), RE.lit '.', RE.grp 3 (rePlusG reAnyC)]

/-- The base-name resolution of find_image_series, mirroring its control
flow exactly: pattern 1 sets the base name, pattern 2 overwrites it when it
also matches, pattern 3 is tried only when neither set it. -/
def baseNameOf (filename : Str) : Option Str :=
  let base0 : Option Str := none
  let base1 :=
    match reMatch pattern1 filename with
    | some g => some (((getGroup g 1).getD []) ++ "DN_series".toList)
    | none => base0
  let base2 :=
    match reMatch pattern2 filename with
    | some g => some (((getGroup g 1).getD []) ++ "DN_".toList ++ ((getGroup g 2).getD []))
    | none => base1
  base2

/-- The cluster key assigned to one filename by find_image_series: the
pattern cascade, else the filename without its extension. -/
def clusterKey (filename : Str) : Str :=
  match baseNameOf filename with
  | some b => b
  | none =>
    match reMatch pattern3 filename with
    | some g => (getGroup g 1).getD []
    | none => pyJoin '.' (pySplit '.' filename).dropLast

/-!
Clustering: find_image_series groups paths into a Python dict (an ordered
association list here), drops singleton clusters, and sorts each cluster
with Python sorted, which is stable and ascending on the key.
-/

/-- Append a path under its key, as defaultdict(list) item append does:
the key keeps its first-insertion position. -/
def assocAppend (acc : List (Str × List Str)) (k : Str) (p : Str) : List (Str × List Str) :=
  match acc with
  | [] => [(k, [p])]
  | (k', v) :: t => if k' = k then (k', v ++ [p]) :: t else (k', v) :: assocAppend t k p

/-- Dict lookup on the ordered association list. -/
def assocLookup (acc : List (Str × List Str)) (k : Str) : Option (List Str) :=
  match acc with
  | [] => none
  | (k', v) :: t => if k' = k then some v else assocLookup t k

/-- One step of a stable insertion sort: the new element goes after every
element whose key is less than or equal to its own. -/
def insSorted (key : α → Nat) (a : α) : List α → List α
  | [] => [a]
  | b :: bs => if key a < key b then a :: b :: bs else b :: insSorted key a bs

/-- Python sorted with a key function: stable, ascending. -/
def pySortByKey (key : α → Nat) (l : List α) : List α :=
  l.foldl (fun acc a => insSorted key a acc) []

/-- find_image_series without the filesystem walk: group the listed paths
by the cluster key of their basename, drop clusters of size one, and sort
each cluster by numeric suffix (ties keep discovery order, since Python
sorted is stable). -/
def find_image_series_core (paths : List Str) : List (Str × List Str) :=
  let grouped := paths.foldl (fun acc p => assocAppend acc (clusterKey (pyBasename p)) p) []
  let filtered := grouped.filter (fun kv => kv.2.length > 1)
  filtered.map (fun kv => (kv.1, pySortByKey extract_number kv.2))

/-- The mapping view of the clusterer output: cluster key to ordered
member list. -/
def clusterOf (paths : List Str) (k : Str) : Option (List Str) :=
  assocLookup (find_image_series_core paths) k

/-!
The caption terminology rule of parse_gemini_response.
-/

/-- The fixed vocabulary of sequence-indicating phrases. -/
def sequence_terms : List Str := ["sequence of".toList, "series of".toList,
  "photo session".toList, "consecutive shots".toList,
  "multiple frames".toList, "progression of".toList]

/-- The subject words tested by caption.lower().startswith. -/
def subject_words : List Str := ["woman".toList, "man".toList, "person".toList,
  "model".toList, "influencer".toList]

/-- The caption rule of parse_gemini_response: strip the caption; when no
sequence term occurs in its lowercase form, prepend a qualifier chosen by
the leading word, storing the prefixed stripped caption; when a term is
already present the stored caption is left untouched. -/
def enhanceCaption (c : Str) : Str :=
  let caption := pyStrip c
  let hasSeqTerm := sequence_terms.any (fun t => strContains t (pyLower caption))
  if hasSeqTerm then c
  else if startsWithAny (pyLower caption) subject_words then
    "sequence of photos showing ".toList ++ caption
  else
    "photo session capturing ".toList ++ caption

/-!
Python JSON values and a parser modelling json.loads.  Numbers are kept as
their lexemes: the pipeline only copies them around, never computes with
them, and truthiness needs only a zero test on the lexeme.
-/

inductive PyVal where
  | null : PyVal
  | bool : Bool → PyVal
  | num : Str → PyVal
  | str : Str → PyVal
  | list : List PyVal → PyVal
  | dict : List (Str × PyVal) → PyVal

/-- Python dict lookup with duplicate keys resolved last-wins, as dict
construction from parsed members does. -/
def pyDictGet (kvs : List (Str × PyVal)) (k : Str) : Option PyVal :=
  match kvs with
  | [] => none
  | (k', v) :: t =>
    match pyDictGet t k with
    | some r => some r
    | none => if k' = k then some v else none

/-- JSON whitespace. -/
def isJsonWs (c : Char) : Bool := c = ' ' || c = '\t' || c = '\n' || c = '\x0d'

def skipWs (s : Str) : Str := s.dropWhile isJsonWs

def hexVal (c : Char) : Option Nat :=
  if '0' ≤ c ∧ c ≤ '9' then some (c.toNat - '0'.toNat)
  else if 'a' ≤ c ∧ c ≤ 'f' then some (c.toNat - 'a'.toNat + 10)
  else if 'A' ≤ c ∧ c ≤ 'F' then some (c.toNat - 'A'.toNat + 10)
  else none

/-- Body of a JSON string after the opening quote: content plus what
follows the closing quote.  Unescaped control characters are rejected, as
json.loads in strict mode does. -/
def parseStrBody (fuel : Nat) (s : Str) : Option (Str × Str) :=
  match fuel with
  | 0 => none
  | fuel + 1 =>
    match s with
    | [] => none
    | '"' :: rest => some ([], rest)
    | '\\' :: e :: rest =>
      let esc : Option (Char × Str) :=
        if e = '"' then some ('"', rest)
        else if e = '\\' then some ('\\', rest)
        else if e = '/' then some ('/', rest)
        else if e = 'b' then some ('\x08', rest)
        else if e = 'f' then some ('\x0c', rest)
        else if e = 'n' then some ('\n', rest)
        else if e = 'r' then some ('\x0d', rest)
        else if e = 't' then some ('\t', rest)
        else if e = 'u' then
          match rest with
          | h1 :: h2 :: h3 :: h4 :: rest2 =>
            match hexVal h1, hexVal h2, hexVal h3, hexVal h4 with
            | some a, some b, some c, some d =>
              some (Char.ofNat (((a * 16 + b) * 16 + c) * 16 + d), rest2)
            | _, _, _, _ => none
          | _ => none
        else none
      match esc with
      | some (c, rest') =>
        match parseStrBody fuel rest' with
        | some (content, rest'') => some (c :: content, rest'')
        | none => none
      | none => none
    | c :: rest =>
      if c.toNat < 32 then none
      else
        match parseStrBody fuel rest with
        | some (content, rest') => some (c :: content, rest')
        | none => none

/-- Lexeme of a JSON number starting at the given characters, following
the JSON grammar: optional minus, integer part without leading zeros,
optional fraction, optional exponent. -/
def numLexeme (s : Str) : Option (Str × Str) :=
  let (sign, s1) : Str × Str := match s with
    | '-' :: t => (['-'], t)
    | _ => ([], s)
  let intPart : Option (Str × Str) := match s1 with
    | '0' :: t => some (['0'], t)
    | c :: t =>
      if c.isDigit then
        some (c :: t.takeWhile Char.isDigit, t.dropWhile Char.isDigit)
      else none
    | [] => none
  match intPart with
  | none => none
  | some (ip, s2) =>
    let (fp, s3) : Str × Str := match s2 with
      | '.' :: d :: t =>
        if d.isDigit then
          ('.' :: d :: t.takeWhile Char.isDigit, t.dropWhile Char.isDigit)
        else ([], s2)
      | _ => ([], s2)
    let (ep, s4) : Str × Str := match s3 with
      | e :: rest =>
        if e = 'e' ∨ e = 'E' then
          let (sgn, rest2) : Str × Str := match rest with
            | '+' :: t => (['+'], t)
            | '-' :: t => (['-'], t)
            | _ => ([], rest)
          match rest2 with
          | d :: t =>
            if d.isDigit then
              (e :: sgn ++ d :: t.takeWhile Char.isDigit, t.dropWhile Char.isDigit)
            else ([], s3)
          | [] => ([], s3)
        else ([], s3)
      | [] => ([], s3)
    some (sign ++ ip ++ fp ++ ep, s4)

mutual

/-- One JSON value, dispatching on the first character as json.loads
does; returns the value and the unconsumed remainder. -/
def parseVal (fuel : Nat) (s : Str) : Option (PyVal × Str) :=
  match fuel with
  | 0 => none
  | fuel + 1 =>
    match s with
    | [] => none
    | c :: t =>
      if c = '{' then
        match parseMembers fuel (skipWs t) with
        | some (kvs, rest) => some (.dict kvs, rest)
        | none => none
      else if c = '[' then
        match parseElems fuel (skipWs t) with
        | some (vs, rest) => some (.list vs, rest)
        | none => none
      else if c = '"' then
        match parseStrBody fuel t with
        | some (content, rest) => some (.str content, rest)
        | none => none
      else if "true".toList.isPrefixOf s then some (.bool true, s.drop 4)
      else if "false".toList.isPrefixOf s then some (.bool false, s.drop 5)
      else if "null".toList.isPrefixOf s then some (.null, s.drop 4)
      else if "NaN".toList.isPrefixOf s then some (.num "NaN".toList, s.drop 3)
      else if "Infinity".toList.isPrefixOf s then some (.num "Infinity".toList, s.drop 8)
      else if "-Infinity".toList.isPrefixOf s then some (.num "-Infinity".toList, s.drop 9)
      else
        match numLexeme s with
        | some (lex, rest) => some (.num lex, rest)
        | none => none

/-- Members of a JSON object after the opening brace (whitespace already
skipped), up to and including the closing brace. -/
def parseMembers (fuel : Nat) (s : Str) : Option (List (Str × PyVal) × Str) :=
  match fuel with
  | 0 => none
  | fuel + 1 =>
    match s with
    | '}' :: rest => some ([], rest)
    | '"' :: t =>
      match parseStrBody fuel t with
      | some (key, rest) =>
        match skipWs rest with
        | ':' :: rest2 =>
          match parseVal fuel (skipWs rest2) with
          | some (v, rest3) =>
            match skipWs rest3 with
            | ',' :: rest4 =>
              match parseMembersNE fuel (skipWs rest4) with
              | some (kvs, rest5) => some ((key, v) :: kvs, rest5)
              | none => none
            | '}' :: rest4 => some ([(key, v)], rest4)
            | _ => none
          | none => none
        | _ => none
      | none => none
    | _ => none

/-- Members of a JSON object when at least one more member is required:
after a comma a closing brace is not allowed. -/
def parseMembersNE (fuel : Nat) (s : Str) : Option (List (Str × PyVal) × Str) :=
  match fuel with
  | 0 => none
  | fuel + 1 =>
    match s with
    | '"' :: t =>
      match parseStrBody fuel t with
      | some (key, rest) =>
        match skipWs rest with
        | ':' :: rest2 =>
          match parseVal fuel (skipWs rest2) with
          | some (v, rest3) =>
            match skipWs rest3 with
            | ',' :: rest4 =>
              match parseMembersNE fuel (skipWs rest4) with
              | some (kvs, rest5) => some ((key, v) :: kvs, rest5)
              | none => none
            | '}' :: rest4 => some ([(key, v)], rest4)
            | _ => none
          | none => none
        | _ => none
      | none => none
    | _ => none

/-- Elements of a JSON array after the opening bracket (whitespace already
skipped), up to and including the closing bracket. -/
def parseElems (fuel : Nat) (s : Str) : Option (List PyVal × Str) :=
  match fuel with
  | 0 => none
  | fuel + 1 =>
    match s with
    | ']' :: rest => some ([], rest)
    | _ =>
      match parseVal fuel s with
      | some (v, rest) =>
        match skipWs rest with
        | ',' :: rest2 =>
          match parseElemsNE fuel (skipWs rest2) with
          | some (vs, rest3) => some (v :: vs, rest3)
          | none => none
        | ']' :: rest2 => some ([v], rest2)
        | _ => none
      | none => none

/-- Elements of a JSON array when at least one more element is required. -/
def parseElemsNE (fuel : Nat) (s : Str) : Option (List PyVal × Str) :=
  match fuel with
  | 0 => none
  | fuel + 1 =>
    match parseVal fuel s with
    | some (v, rest) =>
      match skipWs rest with
      | ',' :: rest2 =>
        match parseElemsNE fuel (skipWs rest2) with
        | some (vs, rest3) => some (v :: vs, rest3)
        | none => none
      | ']' :: rest2 => some ([v], rest2)
      | _ => none
    | none => none

end

/-- json.loads: parse one value surrounded only by whitespace; anything
else is a JSONDecodeError, modelled as none. -/
def pyJsonLoads (s : Str) : Option PyVal :=
  match parseVal (4 * s.length + 16) (skipWs s) with
  | some (v, rest) => if (skipWs rest).isEmpty then some v else none
  | none => none

/-- Python truthiness of a number lexeme being zero: the mantissa consists
only of zeros (an exponent cannot make it nonzero); NaN and Infinity are
truthy. -/
def pyNumIsZero (lex : Str) : Bool :=
  let m := (lex.dropWhile (fun c => c = '-' || c = '+')).takeWhile (fun c => c ≠ 'e' ∧ c ≠ 'E')
  m.any Char.isDigit && m.all (fun c => c = '0' || c = '.')

/-- Python truthiness of a JSON-decoded value. -/
def truthy : PyVal → Bool
  | .null => false
  | .bool b => b
  | .num lex => !pyNumIsZero lex
  | .str s => !s.isEmpty
  | .list l => !l.isEmpty
  | .dict d => !d.isEmpty

/-- The result dictionary built by parse_gemini_response.  Field values
keep the dynamic typing of the Python dict: no validation is applied to
them beyond what the code itself does. -/
structure GeminiResult where
  is_series : PyVal
  images : PyVal
  excluded_images : PyVal
  series_caption : PyVal
  reason : PyVal
  confidence : PyVal

/-- The brace-span extraction of parse_gemini_response: start is the index
of the first opening brace, end one past the last closing brace, and the
slice is taken only when start is found and end exceeds start. -/
def braceSpan (raw : Str) : Option Str :=
  match raw.findIdx? (fun c => c = '{') with
  | none => none
  | some start =>
    match raw.reverse.findIdx? (fun c => c = '}') with
    | none => none
    | some ridx =>
      let endIdx := raw.length - ridx
      if start < endIdx then some ((raw.take endIdx).drop start) else none

/-- The failure record parse_gemini_response returns on unparsable input:
not a series, empty lists, empty caption, a diagnostic reason, zero
confidence. -/
def failureResult (why : Str) : GeminiResult :=
  { is_series := .bool false, images := .list [], excluded_images := .list [],
    series_caption := .str [], reason := .str why, confidence := .num "0.0".toList }

/-- parse_gemini_response: slice between the outermost braces, run
json.loads, fill missing fields with defaults, and apply the caption rule
when is_series and the caption are truthy.  A JSONDecodeError is caught
and yields a failure record (the Python reason carries the decoder detail,
elided here); calling strip on a non-string caption raises an uncaught
AttributeError, modelled as the error case.  The last branch would also
raise (a non-dict has no get), but is unreachable because the slice starts
with an opening brace. -/
def parse_gemini_response (raw : Str) : Except Unit GeminiResult :=
  match braceSpan raw with
  | none => .ok (failureResult "Could not find JSON in Gemini response".toList)
  | some jsonStr =>
    match pyJsonLoads jsonStr with
    | none => .ok (failureResult "JSON parsing error".toList)
    | some (.dict kvs) =>
      let result : GeminiResult := {
        is_series := (pyDictGet kvs "is_series".toList).getD (.bool false),
        images := (pyDictGet kvs "images".toList).getD (.list []),
        excluded_images := (pyDictGet kvs "excluded_images".toList).getD (.list []),
        series_caption := (pyDictGet kvs "series_caption".toList).getD (.str []),
        reason := (pyDictGet kvs "reason".toList).getD (.str "No reason provided".toList),
        confidence := (pyDictGet kvs "confidence".toList).getD (.num "0.0".toList) }
      if truthy result.is_series && truthy result.series_caption then
        match result.series_caption with
        | .str c => .ok { result with series_caption := .str (enhanceCaption c) }
        | _ => .error ()
      else .ok result
    | some _ => .error ()

/-!
The request side of analyze_series_with_gemini: encoding loop, identifier
table, and the identifier-to-filename translation applied to the parsed
response.  Image encoding (image_to_base64) is modelled by a function
argument enc; an empty result is its error path for an unreadable file.
-/

/-- Python dict item assignment: update in place keeping position, else
append. -/
def dictSetStr (m : List (Str × Str)) (k v : Str) : List (Str × Str) :=
  match m with
  | [] => [(k, v)]
  | (k', v') :: t => if k' = k then (k, v) :: t else (k', v') :: dictSetStr t k v

/-- Dict lookup; keys are unique by construction of dictSetStr. -/
def dictGetStr (m : List (Str × Str)) (k : Str) : Option Str :=
  match m with
  | [] => none
  | (k', v') :: t => if k' = k then some v' else dictGetStr t k

/-- The encoding loop of analyze_series_with_gemini: enumerate the paths;
an image whose encoding is empty is skipped entirely, otherwise its
encoding joins image_data and its extracted id maps to its path in
image_id_mapping. -/
def buildImageData (enc : Str → Str) (paths : List Str) : List Str × List (Str × Str) :=
  paths.enum.foldl
    (fun (acc : List Str × List (Str × Str)) (ip : Nat × Str) =>
      let b := enc ip.2
      if b.isEmpty then acc
      else (acc.1 ++ [b], dictSetStr acc.2 (extract_image_id (pyBasename ip.2) ip.1) ip.2))
    ([], [])

/-- The table-and-payload loop of create_gemini_prompt: for the i-th entry
of image_data it takes image_paths[i] as the corresponding path, scans the
mapping for the first identifier bound to that path, and only if one is
found emits both a table row (position i+1, identifier) and the payload. -/
def orderedPromptInfo (paths : List Str) (image_data : List Str)
    (mapping : List (Str × Str)) : List (Nat × Str) × List Str :=
  image_data.enum.foldl
    (fun (acc : List (Nat × Str) × List Str) (ib : Nat × Str) =>
      let correspondingPath := paths.getD ib.1 []
      match mapping.find? (fun kv => kv.2 = correspondingPath) with
      | some kv => (acc.1 ++ [(ib.1 + 1, kv.1)], acc.2 ++ [ib.2])
      | none => acc)
    ([], [])

/-- One entry of the images list of a parsed detector response: the path
field initially holds the short identifier returned by the service. -/
structure ImgInfo where
  path : Str
  order : Int
  full_path : Option Str := none

/-- Typed view of the parsed response dict as the translation loop and
save_series_to_db access it (fields images, excluded_images, is_series). -/
structure DetResponse where
  is_series : Bool
  images : List ImgInfo
  excluded_images : List Str

/-- The identifier translation of analyze_series_with_gemini lines
173-180: only when is_series is truthy, every entry of images whose path
is a known identifier has it replaced by the basename of the mapped path
(recording the full path); unknown identifiers are left as they are, and
excluded_images is never touched. -/
def translateIds (mapping : List (Str × Str)) (r : DetResponse) : DetResponse :=
  if r.is_series then
    { r with images := r.images.map (fun img =>
        match dictGetStr mapping img.path with
        | some full => { img with path := pyBasename full, full_path := some full }
        | none => img) }
  else r

/-!
The curation store rows and the operations of visual_reviewer and
db_maintenance that the claims concern.
-/

/-- A series row; only the columns the verified operations read. -/
structure SeriesRow where
  id : Nat
  is_series : Bool
deriving DecidableEq

/-- A series_images row. -/
structure SeriesImageRow where
  series_id : Option Nat
  image_path : Str
  order_in_series : Int
deriving DecidableEq

/-- The two relevant tables of the SQLite store. -/
structure Store where
  series : List SeriesRow
  series_images : List SeriesImageRow

/-- save_series_to_db: insert the series row; insert one series_images
row per entry of the images list only when is_series is truthy. -/
def save_series_to_db (st : Store) (newId : Nat) (parsed : DetResponse) : Store :=
  let rows := if parsed.is_series then
      parsed.images.map (fun i =>
        ({ series_id := some newId, image_path := i.path, order_in_series := i.order } : SeriesImageRow))
    else []
  { series := st.series ++ [{ id := newId, is_series := parsed.is_series }],
    series_images := st.series_images ++ rows }

/-- db_maintenance.clean_missing_images: delete every series_images row
whose backing file is missing; only when at least one was missing, delete
every series row not referenced by any remaining series_images row. -/
def clean_missing_images (fileExists : Str → Bool) (st : Store) : Store :=
  let images' := st.series_images.filter (fun r => fileExists r.image_path)
  let anyMissing := st.series_images.any (fun r => !fileExists r.image_path)
  if anyMissing then
    { series := st.series.filter (fun s => images'.any (fun r => r.series_id = some s.id)),
      series_images := images' }
  else
    { series := st.series, series_images := images' }

/-- In-memory state of the visual reviewer around series deletion: the
store, the loaded series ids, the set of modified indices and the two
cursors. -/
structure ReviewerState where
  store : Store
  series_data : List Nat
  modified : List Nat
  current_series_idx : Nat
  current_image_idx : Nat

/-- SeriesViewer.delete_current_series, confirmed branch: the SQL issued
is DELETE FROM series WHERE id = ? only, so the series_images table is
left as it is; the series leaves the working set, the modified mark for
this index is discarded, the cursor is clamped, and the returned flag
reports that no series remain (the No More Series dialog and quit). -/
def delete_current_series (rs : ReviewerState) : ReviewerState × Bool :=
  match rs.series_data.get? rs.current_series_idx with
  | none => (rs, false)
  | some sid =>
    let store' : Store := { series := rs.store.series.filter (fun s => s.id ≠ sid),
                            series_images := rs.store.series_images }
    let data' := rs.series_data.eraseIdx rs.current_series_idx
    let modified' := rs.modified.filter (fun i => i ≠ rs.current_series_idx)
    let idx' := if rs.current_series_idx ≥ data'.length ∧ data' ≠ [] then data'.length - 1
                else if data' = [] then 0 else rs.current_series_idx
    ({ store := store', series_data := data', modified := modified',
       current_series_idx := idx', current_image_idx := 0 }, data'.isEmpty)

/-!
The edit reconciliation operations of the visual reviewer.  Toggle and
reorder act purely on the working copy lists keyed by filename; the
direction of a toggle is decided by membership of the filename in the
included list, exactly as get_current_images computes the status flag.
-/

/-- One entry of the included_images working list. -/
structure IncEntry where
  path : Str
  order : Int
deriving DecidableEq

/-- The working copy of one series under review. -/
structure EditState where
  included : List IncEntry
  excluded : List Str
deriving DecidableEq

/-- Python max(list, default=0). -/
def pyMaxD0 (l : List Int) : Int :=
  match l with
  | [] => 0
  | x :: xs => xs.foldl max x

/-- SeriesViewer.toggle_image_inclusion for the image with the given
filename: an included image is filtered out of included and appended to
excluded unless already there; an excluded image is filtered out of
excluded and appended to included with order one past the maximum. -/
def toggle_image_inclusion (f : Str) (st : EditState) : EditState :=
  if st.included.any (fun e => e.path = f) then
    { included := st.included.filter (fun e => e.path ≠ f),
      excluded := if f ∈ st.excluded then st.excluded else st.excluded ++ [f] }
  else
    { included := st.included ++ [⟨f, pyMaxD0 (st.included.map (fun e => e.order)) + 1⟩],
      excluded := st.excluded.filter (fun x => x ≠ f) }

/-- Set the order of the first entry with the given path. -/
def updateFirstOrder (l : List IncEntry) (f : Str) (o : Int) : List IncEntry :=
  match l with
  | [] => []
  | e :: t => if e.path = f then { e with order := o } :: t else e :: updateFirstOrder t f o

/-- Set the order of the last entry with the given path, as the Python
for-loop does by letting later matches overwrite the binding. -/
def updateLastOrder (l : List IncEntry) (f : Str) (o : Int) : List IncEntry :=
  (updateFirstOrder l.reverse f o).reverse

/-- Order of the last entry with the given path. -/
def lastOrderOf (l : List IncEntry) (f : Str) : Option Int :=
  ((l.filter (fun e => e.path = f)).getLast?).map (fun e => e.order)

/-- SeriesViewer.move_image between the images with the two given
filenames: a no-op unless both are currently included; the loop binds
from_img to the last entry named f and, through its elif, to_img to the
last entry named g only when g differs from f; when both bind, their order
values are swapped. -/
def move_image (f g : Str) (st : EditState) : EditState :=
  if (st.included.any (fun e => e.path = f)) ∧ (st.included.any (fun e => e.path = g)) then
    if f = g then st
    else
      match lastOrderOf st.included f, lastOrderOf st.included g with
      | some fo, some go =>
        { st with included := updateLastOrder (updateLastOrder st.included f go) g fo }
      | _, _ => st
  else st

/-- One reviewer edit gesture. -/
inductive EditOp where
  | toggle : Str → EditOp
  | move : Str → Str → EditOp

def applyOp (st : EditState) : EditOp → EditState
  | .toggle f => toggle_image_inclusion f st
  | .move f g => move_image f g st

/-- A finite sequence of toggle and reorder gestures. -/
def applyOps (ops : List EditOp) (st : EditState) : EditState :=
  ops.foldl applyOp st

/-!
SeriesViewer.save_changes.  All updates of one save call run on a single
connection inside one try block with a single commit after the loop: a
failing update aborts the call, the connection is dropped uncommitted and
every update of the call is rolled back; success reports one count, and
failure one error dialog.  Statement execution outcomes are supplied by
the updOk oracle, indexed by series id.
-/

/-- The serialized classification the reviewer writes back: exactly the
four keys images, excluded_images, confidence, reason. -/
structure StoredClassification where
  images : List IncEntry
  excluded_images : List Str
  confidence : Str
  reason : Str
deriving DecidableEq

/-- One loaded series as save_changes reads it. -/
structure ReviewSeries where
  id : Nat
  included_images : List IncEntry
  excluded_images : List Str
  confidence : Str
  reason : Str

/-- One row of the series table as save_changes writes it. -/
structure DbRow where
  id : Nat
  parsed : StoredClassification
  image_count : Nat
deriving DecidableEq

/-- The state save_changes runs in. -/
structure SaveCtx where
  db : List DbRow
  series_data : List ReviewSeries
  modified : List Nat

/-- What the user is shown after a save. -/
inductive SaveReport where
  | noChanges : SaveReport
  | savedCount : Nat → SaveReport
  | failure : SaveReport
deriving DecidableEq

/-- The classification dict save_changes reconstructs for one series. -/
def mkStored (s : ReviewSeries) : StoredClassification :=
  { images := s.included_images, excluded_images := s.excluded_images,
    confidence := s.confidence, reason := s.reason }

/-- The update loop of save_changes: indices out of range are skipped by
the bounds guard; each execute either buffers an update in the open
transaction or raises, aborting the whole call. -/
def runUpdates (updOk : Nat → Bool) (series_data : List ReviewSeries) :
    List Nat → Option (List (Nat × StoredClassification × Nat) × Nat)
  | [] => some ([], 0)
  | idx :: rest =>
    match series_data.get? idx with
    | none => runUpdates updOk series_data rest
    | some s =>
      if updOk s.id then
        match runUpdates updOk series_data rest with
        | some (ups, n) => some ((s.id, mkStored s, s.included_images.length) :: ups, n + 1)
        | none => none
      else none

/-- UPDATE series SET gemini_parsed_response, image_count WHERE id. -/
def applyUpdate (db : List DbRow) (u : Nat × StoredClassification × Nat) : List DbRow :=
  db.map (fun r => if r.id = u.1 then { r with parsed := u.2.1, image_count := u.2.2 } else r)

/-- SeriesViewer.save_changes: nothing to do when no series is modified;
otherwise run every update and commit them all at once, clearing the
modified set, or on any exception leave the database and the modified set
untouched and report a single failure. -/
def save_changes (updOk : Nat → Bool) (st : SaveCtx) : SaveCtx × SaveReport :=
  if st.modified.isEmpty then (st, .noChanges)
  else
    match runUpdates updOk st.series_data st.modified with
    | some (ups, n) =>
      ({ st with db := ups.foldl applyUpdate st.db, modified := [] }, .savedCount n)
    | none => (st, .failure)

/-!
Predicates used to state the claims.
-/

/-- The included working list of an edit session has pairwise-distinct
filenames, pairwise-distinct order values, and positive orders. -/
def editInvariant (st : EditState) : Prop :=
  (st.included.map (fun e => e.path)).Nodup ∧
  (st.included.map (fun e => e.order)).Nodup ∧
  ∀ e ∈ st.included, 0 < e.order

instance : DecidablePred editInvariant := fun st => by
  unfold editInvariant
  infer_instance

/-- The order values of the included list, read in list position, are
exactly 1, 2, up to its length: a strictly increasing permutation of 1..N. -/
def ordersAreOneToN (st : EditState) : Prop :=
  st.included.map (fun e => e.order) =
    (List.range st.included.length).map (fun i : Nat => (i : Int) + 1)

instance : DecidablePred ordersAreOneToN := fun st => by
  unfold ordersAreOneToN
  infer_instance

/-- A raw service text is caption-well-typed when its brace slice either
fails to load, or loads to an object in which a truthy is_series together
with a truthy series_caption implies the caption value is a string (the
one shape on which parse_gemini_response calls strip). -/
def captionWellTyped (raw : Str) : Bool :=
  match braceSpan raw with
  | none => true
  | some jsonStr =>
    match pyJsonLoads jsonStr with
    | some (.dict kvs) =>
      let isS := (pyDictGet kvs "is_series".toList).getD (.bool false)
      let cap := (pyDictGet kvs "series_caption".toList).getD (.str [])
      if truthy isS && truthy cap then
        match cap with
        | .str _ => true
        | _ => false
      else true
    | _ => true

/-- The identifier and path pair assigned to each position of a request,
in request order. -/
def idPairs (paths : List Str) : List (Str × Str) :=
  paths.enum.map (fun ip => (extract_image_id (pyBasename ip.2) ip.1, ip.2))

/-- The identifier assigned to position i of a request. -/
def requestId (paths : List Str) (i : Nat) : Str :=
  extract_image_id (pyBasename (paths.getD i [])) i

/-- The series at one index of the loaded list (the indices used come
from the modified set, which save_changes bounds-checks). -/
def seriesAt (sd : List ReviewSeries) (i : Nat) : ReviewSeries :=
  (sd.get? i).getD { id := 0, included_images := [], excluded_images := [],
                     confidence := [], reason := [] }

/-- The series row with a given id. -/
def dbLookup (db : List DbRow) (k : Nat) : Option DbRow :=
  db.find? (fun r => r.id = k)

/-- The per-row effect of the buffered updates of one save call. -/
def rowApply (ups : List (Nat × StoredClassification × Nat)) (r : DbRow) : DbRow :=
  ups.foldl (fun x u => if x.id = u.1 then { x with parsed := u.2.1, image_count := u.2.2 } else x) r

/-!
Concrete states used as counterexample and witness inputs.
-/

/-- An empty stored classification, the old database content in the save
examples. -/
def exOldStored : StoredClassification :=
  { images := [], excluded_images := [], confidence := "0.0".toList, reason := [] }

/-- Old database rows for two series. -/
def exOldDb : List DbRow :=
  [{ id := 10, parsed := exOldStored, image_count := 0 },
   { id := 11, parsed := exOldStored, image_count := 0 }]

/-- Loaded series 10 with one reviewed inclusion. -/
def exSeriesTen : ReviewSeries :=
  { id := 10, included_images := [{ path := "a.jpg".toList, order := 1 }],
    excluded_images := [], confidence := "0.9".toList, reason := "r0".toList }

/-- Loaded series 11 with one reviewed inclusion. -/
def exSeriesEleven : ReviewSeries :=
  { id := 11, included_images := [{ path := "b.jpg".toList, order := 1 }],
    excluded_images := [], confidence := "0.8".toList, reason := "r1".toList }

/-- A save context with both series dirty. -/
def exSaveCtx : SaveCtx :=
  { db := exOldDb, series_data := [exSeriesTen, exSeriesEleven], modified := [0, 1] }

/-- A store with one positive series owning two image rows. -/
def exStoreOne : Store :=
  { series := [{ id := 1, is_series := true }],
    series_images :=
      [{ series_id := some 1, image_path := "p1".toList, order_in_series := 1 },
       { series_id := some 1, image_path := "p2".toList, order_in_series := 2 }] }

/-- An edit session over two included images with orders one and two. -/
def exEditTwo : EditState :=
  { included := [{ path := "a.jpg".toList, order := 1 },
                 { path := "b.jpg".toList, order := 2 }], excluded := [] }

/-- A filename matched by both pattern 1 and pattern 2. -/
def exNameBoth : Str := "2025_01_01_01_01_01_uDNa__1.b_2.jpg".toList

/-- A filename matched by pattern 2 only (timestamp, account, caption). -/
def exNameCaption : Str :=
  "2025_08_28_15_16_56_jenny.lbxDN50WMMDLFf_vienna_has_my_heart__vienna__dump__wien_12.jpg".toList

/-- A filename matched by pattern 1 only (timestamp, session id). -/
def exNameSess : Str := "2025_08_28_15_09_21_unfashDN5zem3DKwP______________04.jpg".toList

/-- A filename matched only by the generic pattern 3. -/
def exNameGeneric : Str := "x_01.jpg".toList

/-- A filename matched by no pattern. -/
def exNamePlain : Str := "x.jpg".toList

/-- A store with a positive series owning two image rows and a negative
series owning none, as save_series_to_db creates them. -/
def exStoreTwo : Store :=
  { series := [{ id := 1, is_series := true }, { id := 2, is_series := false }],
    series_images :=
      [{ series_id := some 1, image_path := "p1".toList, order_in_series := 1 },
       { series_id := some 1, image_path := "p2".toList, order_in_series := 2 }] }

/-- A filesystem on which only p2 is missing. -/
def exFE : Str → Bool := fun p => p ≠ "p2".toList

/-!
Shared helper lemmas.
-/

theorem strContains_of_isPrefixOf {t h : Str} (hp : t.isPrefixOf h = true) :
    strContains t h = true := by
  cases h with
  | nil =>
    have : t <+: [] := List.isPrefixOf_iff_prefix.mp hp
    have ht : t = [] := List.prefix_nil.mp this
    simp [strContains, ht]
  | cons c h' => simp [strContains, hp]

theorem dropWhile_rev_pyStrip (c : Str) :
    (pyStrip c).reverse.dropWhile isPySpace = (pyStrip c).reverse := by
  unfold pyStrip
  rw [List.reverse_reverse]
  exact List.dropWhile_idempotent _ _

theorem pyStrip_pref_append (c0 : Char) (t : Str) (c : Str)
    (hc0 : isPySpace c0 = false) (hne : pyStrip c ≠ []) :
    pyStrip ((c0 :: t) ++ pyStrip c) = (c0 :: t) ++ pyStrip c := by
  have h1 : ((c0 :: t) ++ pyStrip c).dropWhile isPySpace = (c0 :: t) ++ pyStrip c := by
    rw [List.cons_append, List.dropWhile_cons, hc0]
    simp
  have hrevne : (pyStrip c).reverse.isEmpty = false := by
    cases hx : pyStrip c with
    | nil => exact absurd hx hne
    | cons a l => simp [hx]
  have h2 : ((c0 :: t) ++ pyStrip c).reverse.dropWhile isPySpace =
      (pyStrip c).reverse ++ (c0 :: t).reverse := by
    rw [List.reverse_append, List.dropWhile_append, dropWhile_rev_pyStrip, hrevne]
    simp
  show ((((c0 :: t) ++ pyStrip c).dropWhile isPySpace).reverse.dropWhile isPySpace).reverse
      = (c0 :: t) ++ pyStrip c
  rw [h1, h2, List.reverse_append, List.reverse_reverse, List.reverse_reverse]

theorem pyLower_pref_append (p s : Str) (hp : pyLower p = p) :
    pyLower (p ++ s) = p ++ pyLower s := by
  unfold pyLower at *
  rw [List.map_append, hp]

/-- C9: the sequence-terminology caption rule is idempotent: applying the
rule of parse_gemini_response twice to any caption gives the same result
as applying it once; captions already containing a vocabulary phrase, and
captions produced by one application, pass through unchanged. -/
theorem caption_rule_idempotent (c : Str) :
    enhanceCaption (enhanceCaption c) = enhanceCaption c := by
  by_cases hterm : (sequence_terms.any (fun t => strContains t (pyLower (pyStrip c)))) = true
  · have h1 : enhanceCaption c = c := by
      unfold enhanceCaption
      simp only [hterm, if_true]
    rw [h1]
    exact h1
  · have hterm' : (sequence_terms.any (fun t => strContains t (pyLower (pyStrip c)))) = false :=
      Bool.not_eq_true _ ▸ Bool.of_not_eq_true hterm
    by_cases hsub : startsWithAny (pyLower (pyStrip c)) subject_words = true
    · have hne : pyStrip c ≠ [] := by
        intro h0
        rw [h0] at hsub
        revert hsub
        decide
      have hval : enhanceCaption c = "sequence of photos showing ".toList ++ pyStrip c := by
        unfold enhanceCaption
        simp only [hterm', hsub, if_true]
        simp
      have hps : pyStrip ("sequence of photos showing ".toList ++ pyStrip c) =
          "sequence of photos showing ".toList ++ pyStrip c := by
        have := pyStrip_pref_append 's' "equence of photos showing ".toList c (by decide) hne
        simpa using this
      have hterm2 : (sequence_terms.any (fun t => strContains t
          (pyLower (pyStrip ("sequence of photos showing ".toList ++ pyStrip c))))) = true := by
        rw [hps]
        apply List.any_eq_true.mpr
        refine ⟨"sequence of".toList, by decide, ?_⟩
        apply strContains_of_isPrefixOf
        rw [List.isPrefixOf_iff_prefix]
        rw [pyLower_pref_append _ _ (by decide)]
        have hsplit : "sequence of photos showing ".toList =
            "sequence of".toList ++ " photos showing ".toList := by decide
        rw [hsplit, List.append_assoc]
        exact ⟨_, rfl⟩
      rw [hval]
      unfold enhanceCaption
      simp only [hterm2, if_true]
    · have hsub' : startsWithAny (pyLower (pyStrip c)) subject_words = false :=
        Bool.not_eq_true _ ▸ Bool.of_not_eq_true hsub
      have hval : enhanceCaption c = "photo session capturing ".toList ++ pyStrip c := by
        unfold enhanceCaption
        simp only [hterm', hsub', if_true]
        simp
      by_cases hs0 : pyStrip c = []
      · rw [hval, hs0]
        simp only [List.append_nil]
        decide
      · have hps : pyStrip ("photo session capturing ".toList ++ pyStrip c) =
            "photo session capturing ".toList ++ pyStrip c := by
          have := pyStrip_pref_append 'p' "hoto session capturing ".toList c (by decide) hs0
          simpa using this
        have hterm2 : (sequence_terms.any (fun t => strContains t
            (pyLower (pyStrip ("photo session capturing ".toList ++ pyStrip c))))) = true := by
          rw [hps]
          apply List.any_eq_true.mpr
          refine ⟨"photo session".toList, by decide, ?_⟩
          apply strContains_of_isPrefixOf
          rw [List.isPrefixOf_iff_prefix]
          rw [pyLower_pref_append _ _ (by decide)]
          have hsplit : "photo session capturing ".toList =
              "photo session".toList ++ " capturing ".toList := by decide
          rw [hsplit, List.append_assoc]
          exact ⟨_, rfl⟩
        rw [hval]
        unfold enhanceCaption
        simp only [hterm2, if_true]

theorem braceSpan_head {raw js : Str} (h : braceSpan raw = some js) :
    ∃ t, js = '{' :: t := by
  unfold braceSpan at h
  cases hf : raw.findIdx? (fun c => c = '{') with
  | none => rw [hf] at h; cases h
  | some start =>
    rw [hf] at h
    cases hr : raw.reverse.findIdx? (fun c => c = '}') with
    | none => rw [hr] at h; cases h
    | some ridx =>
      rw [hr] at h
      simp only at h
      by_cases hlt : start < raw.length - ridx
      · rw [if_pos hlt] at h
        injection h with h
        obtain ⟨hstart, hp, _⟩ := List.findIdx?_eq_some_iff_getElem.mp hf
        have hbrace : raw[start] = '{' := by simpa using hp
        have h1 : js.head? = (raw.take (raw.length - ridx))[start]? := by
          rw [← h]
          exact List.head?_drop _ _
        have h2 : (raw.take (raw.length - ridx))[start]? = raw[start]? := by
          rw [List.getElem?_take, if_pos hlt]
        have h3 : raw[start]? = some '{' := by
          rw [List.getElem?_eq_getElem hstart, hbrace]
        rw [h2, h3] at h1
        cases js with
        | nil => cases h1
        | cons a t =>
          simp only [List.head?_cons, Option.some.injEq] at h1
          exact ⟨t, by rw [h1]⟩
      · rw [if_neg hlt] at h
        cases h

theorem pyJsonLoads_brace {t : Str} {v : PyVal} (h : pyJsonLoads ('{' :: t) = some v) :
    ∃ kvs, v = PyVal.dict kvs := by
  unfold pyJsonLoads at h
  have hsw : skipWs ('{' :: t) = '{' :: t := by
    have hws : isJsonWs '{' = false := by decide
    simp [skipWs, List.dropWhile_cons, hws]
  rw [hsw] at h
  obtain ⟨F, hF⟩ : ∃ F, 4 * ('{' :: t).length + 16 = F + 1 :=
    ⟨4 * ('{' :: t).length + 15, by omega⟩
  rw [hF] at h
  rw [parseVal] at h
  simp only [reduceIte] at h
  cases hm : parseMembers F (skipWs t) with
  | none => rw [hm] at h; cases h
  | some pr =>
    rw [hm] at h
    simp only at h
    by_cases he : (skipWs pr.2).isEmpty = true
    · rw [if_pos he] at h
      injection h with h
      exact ⟨pr.1, by rw [← h]⟩
    · rw [if_neg he] at h
      cases h

/-- C6 counterexample: parse_gemini_response does raise for some raw
texts.  On a structured block whose series_caption field is the number 1
while is_series is true, the strip call raises an uncaught AttributeError
(the error case of the embedding), so no result record is returned. -/
theorem response_normalizer_exception_counterexample :
    parse_gemini_response "\x7b\"is_series\": true, \"series_caption\": 1\x7d".toList =
      Except.error () := by rfl

/-- C6 amended: for every raw service text whose embedded structured
block is caption-well-typed (a truthy is_series and truthy series_caption
only with a string caption), parse_gemini_response returns a result
record and never raises; with no brace pair in the text the record is the
no-structured-block failure record with is_series false and confidence
zero. -/
theorem response_normalizer_total (raw : Str) (h : captionWellTyped raw = true) :
    ∃ r, parse_gemini_response raw = Except.ok r ∧
      (braceSpan raw = none →
        r = failureResult "Could not find JSON in Gemini response".toList) := by
  cases hbs : braceSpan raw with
  | none =>
    refine ⟨failureResult "Could not find JSON in Gemini response".toList, ?_, fun _ => rfl⟩
    simp [parse_gemini_response, hbs]
  | some js =>
    cases hld : pyJsonLoads js with
    | none =>
      refine ⟨failureResult "JSON parsing error".toList, ?_, nofun⟩
      simp [parse_gemini_response, hbs, hld]
    | some v =>
      obtain ⟨t, rfl⟩ := braceSpan_head hbs
      obtain ⟨kvs, rfl⟩ := pyJsonLoads_brace hld
      unfold captionWellTyped at h
      rw [hbs] at h
      simp only at h
      rw [hld] at h
      simp only at h
      by_cases hcond : (truthy ((pyDictGet kvs "is_series".toList).getD (.bool false)) &&
          truthy ((pyDictGet kvs "series_caption".toList).getD (.str []))) = true
      · rw [if_pos hcond] at h
        cases hcap : (pyDictGet kvs "series_caption".toList).getD (.str []) with
        | str s =>
          exact ⟨_, by
            simp only [parse_gemini_response, hbs, hld]
            rw [if_pos hcond, hcap], nofun⟩
        | null => rw [hcap] at h; cases h
        | bool b => rw [hcap] at h; cases h
        | num n => rw [hcap] at h; cases h
        | list l => rw [hcap] at h; cases h
        | dict d => rw [hcap] at h; cases h
      · have hcond' := Bool.of_not_eq_true hcond
        exact ⟨_, by
          simp only [parse_gemini_response, hbs, hld]
          rw [if_neg (by rw [hcond']; simp)], nofun⟩

theorem dictSetStr_fresh (m : List (Str × Str)) (k v : Str)
    (hk : ∀ pr ∈ m, pr.1 ≠ k) : dictSetStr m k v = m ++ [(k, v)] := by
  induction m with
  | nil => rfl
  | cons pr t ih =>
    have hne : pr.1 ≠ k := hk pr (by simp)
    simp only [dictSetStr, if_neg hne, List.cons_append]
    rw [ih (fun q hq => hk q (by simp [hq]))]

theorem foldl_dictSetStr_fresh :
    ∀ (l m : List (Str × Str)), ((m ++ l).map Prod.fst).Nodup →
    l.foldl (fun acc pr => dictSetStr acc pr.1 pr.2) m = m ++ l := by
  intro l
  induction l with
  | nil => intro m _; simp
  | cons pr t ih =>
    intro m hnd
    have hk : ∀ q ∈ m, q.1 ≠ pr.1 := by
      intro q hq he
      have hndk := hnd
      rw [List.map_append, List.nodup_append] at hndk
      have hq1 : q.1 ∈ m.map Prod.fst := List.mem_map_of_mem _ hq
      have hp1 : q.1 ∈ (pr :: t).map Prod.fst := by rw [he]; simp
      exact hndk.2.2 hq1 hp1
    have step : dictSetStr m pr.1 pr.2 = m ++ [pr] := dictSetStr_fresh m pr.1 pr.2 hk
    simp only [List.foldl_cons, step]
    have := ih (m ++ [pr]) (by simpa using hnd)
    rw [this]
    simp

theorem dictGetStr_mem :
    ∀ (l : List (Str × Str)) (k v : Str), (l.map Prod.fst).Nodup → (k, v) ∈ l →
    dictGetStr l k = some v := by
  intro l
  induction l with
  | nil => intro k v _ hmem; cases hmem
  | cons pr t ih =>
    intro k v hnd hmem
    rcases List.mem_cons.mp hmem with heq | hmem'
    · subst heq
      simp [dictGetStr]
    · have hne : pr.1 ≠ k := by
        intro he
        have : k ∈ t.map Prod.fst := List.mem_map.mpr ⟨(k, v), hmem', rfl⟩
        rw [List.map_cons] at hnd
        exact (List.nodup_cons.mp hnd).1 (he ▸ this)
      simp only [dictGetStr, if_neg hne]
      exact ih k v (by rw [List.map_cons] at hnd; exact (List.nodup_cons.mp hnd).2) hmem'

theorem buildFold_readable (enc : Str → Str) :
    ∀ (l : List (Nat × Str)) (acc : List Str × List (Str × Str)),
    (∀ ip ∈ l, (enc ip.2).isEmpty = false) →
    l.foldl (fun acc ip =>
      let b := enc ip.2
      if b.isEmpty then acc
      else (acc.1 ++ [b], dictSetStr acc.2 (extract_image_id (pyBasename ip.2) ip.1) ip.2)) acc =
    (acc.1 ++ l.map (fun ip => enc ip.2),
     l.foldl (fun m ip => dictSetStr m (extract_image_id (pyBasename ip.2) ip.1) ip.2) acc.2) := by
  intro l
  induction l with
  | nil => intro acc _; simp
  | cons ip t ih =>
    intro acc hr
    have hip : (enc ip.2).isEmpty = false := hr ip (by simp)
    simp only [List.foldl_cons, List.map_cons, hip]
    rw [ih _ (fun q hq => hr q (by simp [hq]))]
    simp

theorem buildImageData_mapping (enc : Str → Str) (paths : List Str)
    (hread : ∀ p ∈ paths, (enc p).isEmpty = false)
    (hids : ((idPairs paths).map Prod.fst).Nodup) :
    (buildImageData enc paths).2 = idPairs paths := by
  unfold buildImageData
  rw [buildFold_readable enc paths.enum ([], [])
    (fun ip hip => hread ip.2 (List.snd_mem_of_mem_enum hip))]
  show paths.enum.foldl
    (fun m ip => dictSetStr m (extract_image_id (pyBasename ip.2) ip.1) ip.2) [] = _
  have hfm := List.foldl_map (fun ip : Nat × Str => (extract_image_id (pyBasename ip.2) ip.1, ip.2))
    (fun (acc : List (Str × Str)) (pr : Str × Str) => dictSetStr acc pr.1 pr.2) paths.enum ([] : List (Str × Str))
  rw [← hfm]
  exact foldl_dictSetStr_fresh (idPairs paths) [] (by simpa using hids)

theorem requestId_mem_idPairs (paths : List Str) (i : Nat) (hi : i < paths.length) :
    (requestId paths i, paths.getD i []) ∈ idPairs paths := by
  unfold idPairs requestId
  apply List.mem_map.mpr
  refine ⟨(i, paths.getD i []), ?_, rfl⟩
  rw [List.mk_mem_enum_iff_get?, List.get?_eq_get hi, List.getD_eq_get _ _ hi]

theorem requestId_lookup (enc : Str → Str) (paths : List Str)
    (hread : ∀ p ∈ paths, (enc p).isEmpty = false)
    (hids : ((idPairs paths).map Prod.fst).Nodup)
    (i : Nat) (hi : i < paths.length) :
    dictGetStr (buildImageData enc paths).2 (requestId paths i) = some (paths.getD i []) := by
  rw [buildImageData_mapping enc paths hread hids]
  exact dictGetStr_mem _ _ _ hids (requestId_mem_idPairs paths i hi)

/-- C1 counterexample: the translation step does not touch the excluded
list and keeps unresolvable identifiers.  With the mapping built for two
readable images, the excluded identifier _01 is resolvable to
dir/a_01.jpg yet stays _01 in the output, which differs from the original
filename; and an included identifier absent from the table is kept, not
dropped. -/
theorem translate_counterexample :
    (dictGetStr (buildImageData (fun _ => "x".toList)
        ["dir/a_01.jpg".toList, "dir/a_02.jpg".toList]).2 "_01".toList =
      some "dir/a_01.jpg".toList) ∧
    ((translateIds (buildImageData (fun _ => "x".toList)
        ["dir/a_01.jpg".toList, "dir/a_02.jpg".toList]).2
        { is_series := true, images := [{ path := "_02".toList, order := 1 }],
          excluded_images := ["_01".toList] }).excluded_images = ["_01".toList]) ∧
    "_01".toList ≠ "a_01.jpg".toList ∧
    ((translateIds (buildImageData (fun _ => "x".toList)
        ["dir/a_01.jpg".toList, "dir/a_02.jpg".toList]).2
        { is_series := true, images := [{ path := "_99".toList, order := 1 }],
          excluded_images := [] }).images.map (fun im => im.path) = ["_99".toList]) := by
  refine ⟨by decide, by decide, by decide, by decide⟩

/-- C1 amended: for every candidate sequence whose images are all
readable and whose assigned identifiers are distinct, and for every
response using any selection of the request identifiers as its included
list, the translation maps every included identifier back to the basename
of its original path and records the full path; identifiers outside the
table would be kept unchanged, and the excluded list passes through
untranslated rather than being mapped to filenames. -/
theorem translate_included_round_trip (enc : Str → Str) (paths : List Str)
    (sel : List Nat) (orders : Nat → Int) (exc : List Str)
    (hread : ∀ p ∈ paths, (enc p).isEmpty = false)
    (hids : ((idPairs paths).map Prod.fst).Nodup)
    (hsel : ∀ i ∈ sel, i < paths.length) :
    ((translateIds (buildImageData enc paths).2
        { is_series := true,
          images := sel.map (fun i => { path := requestId paths i, order := orders i }),
          excluded_images := exc }).images.map (fun im => im.path) =
      sel.map (fun i => pyBasename (paths.getD i []))) ∧
    ((translateIds (buildImageData enc paths).2
        { is_series := true,
          images := sel.map (fun i => { path := requestId paths i, order := orders i }),
          excluded_images := exc }).images.map (fun im => im.full_path) =
      sel.map (fun i => some (paths.getD i []))) ∧
    ((translateIds (buildImageData enc paths).2
        { is_series := true,
          images := sel.map (fun i => { path := requestId paths i, order := orders i }),
          excluded_images := exc }).excluded_images = exc) := by
  have hstep : ∀ i ∈ sel,
      dictGetStr (buildImageData enc paths).2 (requestId paths i) = some (paths.getD i []) :=
    fun i hi => requestId_lookup enc paths hread hids i (hsel i hi)
  refine ⟨?_, ?_, ?_⟩
  · simp only [translateIds, if_true, ite_true, List.map_map]
    apply List.map_eq_map_iff.mpr
    intro i hi
    simp only [Function.comp_apply]
    rw [hstep i hi]
  · simp only [translateIds, if_true, ite_true, List.map_map]
    apply List.map_eq_map_iff.mpr
    intro i hi
    simp only [Function.comp_apply]
    rw [hstep i hi]
  · simp [translateIds]

/-- Witness for the amended C1 round trip at a concrete three-image
sequence with the selection reordered and one image excluded. -/
theorem translate_included_round_trip_witness :
    (∀ p ∈ ["d/a_01.jpg".toList, "d/a_02.jpg".toList, "d/a_03.jpg".toList],
      ((fun _ => "x".toList) p : Str).isEmpty = false) ∧
    ((idPairs ["d/a_01.jpg".toList, "d/a_02.jpg".toList, "d/a_03.jpg".toList]).map Prod.fst).Nodup ∧
    (∀ i ∈ [1, 0], i < (["d/a_01.jpg".toList, "d/a_02.jpg".toList, "d/a_03.jpg".toList] : List Str).length) ∧
    ((translateIds (buildImageData (fun _ => "x".toList)
        ["d/a_01.jpg".toList, "d/a_02.jpg".toList, "d/a_03.jpg".toList]).2
        { is_series := true,
          images := [1, 0].map (fun i =>
            { path := requestId ["d/a_01.jpg".toList, "d/a_02.jpg".toList, "d/a_03.jpg".toList] i,
              order := (fun i => (i : Int) + 1) i }),
          excluded_images := ["_03".toList] }).images.map (fun im => im.path) =
      [1, 0].map (fun i =>
        pyBasename ((["d/a_01.jpg".toList, "d/a_02.jpg".toList, "d/a_03.jpg".toList] : List Str).getD i []))) := by
  refine ⟨by decide, by decide, by decide, ?_⟩
  exact (translate_included_round_trip (fun _ => "x".toList)
    ["d/a_01.jpg".toList, "d/a_02.jpg".toList, "d/a_03.jpg".toList]
    [1, 0] (fun i => (i : Int) + 1) ["_03".toList]
    (by decide) (by decide) (by decide)).1

/-- Witness for the amended C6 totality at a concrete well-typed raw
text carrying a string caption. -/
theorem response_normalizer_total_witness :
    captionWellTyped "\x7b\"is_series\": true, \"series_caption\": \"a walk\"\x7d".toList = true ∧
    ∃ r, parse_gemini_response
        "\x7b\"is_series\": true, \"series_caption\": \"a walk\"\x7d".toList = Except.ok r ∧
      (braceSpan "\x7b\"is_series\": true, \"series_caption\": \"a walk\"\x7d".toList = none →
        r = failureResult "Could not find JSON in Gemini response".toList) :=
  ⟨by decide, response_normalizer_total _ (by decide)⟩

/-- C2: evaluation at the failing input.  With three images of which the
first is unreadable, the identifier table built by create_gemini_prompt
has exactly one row, whose identifier the request-local table maps to the
second image, while the payload in the same position is the encoding of
the third image: the table and the payload disagree positionally, because
the loop pairs payload i with image_paths[i] even though unreadable
images were dropped from image_data. -/
theorem prompt_misalignment_at_failing_input :
    (buildImageData
        (fun p => if p = "d/a_01.jpg".toList then [] else "enc_".toList ++ p)
        ["d/a_01.jpg".toList, "d/b_02.jpg".toList, "d/c_03.jpg".toList]).1 =
      ["enc_d/b_02.jpg".toList, "enc_d/c_03.jpg".toList] ∧
    (orderedPromptInfo ["d/a_01.jpg".toList, "d/b_02.jpg".toList, "d/c_03.jpg".toList]
        (buildImageData
          (fun p => if p = "d/a_01.jpg".toList then [] else "enc_".toList ++ p)
          ["d/a_01.jpg".toList, "d/b_02.jpg".toList, "d/c_03.jpg".toList]).1
        (buildImageData
          (fun p => if p = "d/a_01.jpg".toList then [] else "enc_".toList ++ p)
          ["d/a_01.jpg".toList, "d/b_02.jpg".toList, "d/c_03.jpg".toList]).2).1 =
      [(2, "_02".toList)] ∧
    (orderedPromptInfo ["d/a_01.jpg".toList, "d/b_02.jpg".toList, "d/c_03.jpg".toList]
        (buildImageData
          (fun p => if p = "d/a_01.jpg".toList then [] else "enc_".toList ++ p)
          ["d/a_01.jpg".toList, "d/b_02.jpg".toList, "d/c_03.jpg".toList]).1
        (buildImageData
          (fun p => if p = "d/a_01.jpg".toList then [] else "enc_".toList ++ p)
          ["d/a_01.jpg".toList, "d/b_02.jpg".toList, "d/c_03.jpg".toList]).2).2 =
      ["enc_d/c_03.jpg".toList] ∧
    dictGetStr (buildImageData
        (fun p => if p = "d/a_01.jpg".toList then [] else "enc_".toList ++ p)
        ["d/a_01.jpg".toList, "d/b_02.jpg".toList, "d/c_03.jpg".toList]).2 "_02".toList =
      some "d/b_02.jpg".toList ∧
    ("enc_d/c_03.jpg".toList : Str) ≠
      (fun p => if p = "d/a_01.jpg".toList then [] else "enc_".toList ++ p) "d/b_02.jpg".toList := by
  refine ⟨by decide, by decide, by decide, by decide, by decide⟩

/-- C3: evaluation at the failing input.  Deleting the current series
with two series_images rows removes only the series row: both
series_images rows, still referencing the deleted id, remain in the
store, while the claim and the schema's foreign key (and the sibling
remove_series_by_name) require them to be removed; the working set,
cursor and no-series signal behave as claimed. -/
theorem delete_orphans_at_failing_input :
    (delete_current_series
        { store := { series := [{ id := 1, is_series := true }],
                     series_images := [{ series_id := some 1, image_path := "p1".toList, order_in_series := 1 },
                                       { series_id := some 1, image_path := "p2".toList, order_in_series := 2 }] },
          series_data := [1], modified := [], current_series_idx := 0,
          current_image_idx := 0 }).1.store.series = [] ∧
    (delete_current_series
        { store := { series := [{ id := 1, is_series := true }],
                     series_images := [{ series_id := some 1, image_path := "p1".toList, order_in_series := 1 },
                                       { series_id := some 1, image_path := "p2".toList, order_in_series := 2 }] },
          series_data := [1], modified := [], current_series_idx := 0,
          current_image_idx := 0 }).1.store.series_images =
      [{ series_id := some 1, image_path := "p1".toList, order_in_series := 1 },
       { series_id := some 1, image_path := "p2".toList, order_in_series := 2 }] ∧
    (delete_current_series
        { store := { series := [{ id := 1, is_series := true }],
                     series_images := [{ series_id := some 1, image_path := "p1".toList, order_in_series := 1 },
                                       { series_id := some 1, image_path := "p2".toList, order_in_series := 2 }] },
          series_data := [1], modified := [], current_series_idx := 0,
          current_image_idx := 0 }).1.series_data = [] ∧
    (delete_current_series
        { store := { series := [{ id := 1, is_series := true }],
                     series_images := [{ series_id := some 1, image_path := "p1".toList, order_in_series := 1 },
                                       { series_id := some 1, image_path := "p2".toList, order_in_series := 2 }] },
          series_data := [1], modified := [], current_series_idx := 0,
          current_image_idx := 0 }).2 = true := by
  refine ⟨rfl, rfl, rfl, rfl⟩

theorem foldl_applyUpdate_eq_map :
    ∀ (ups : List (Nat × StoredClassification × Nat)) (db : List DbRow),
    ups.foldl applyUpdate db = db.map (rowApply ups) := by
  intro ups
  induction ups with
  | nil =>
    intro db
    rw [List.foldl_nil, show rowApply ([] : List (Nat × StoredClassification × Nat)) = id from
      funext (fun r => rfl), List.map_id]
  | cons u t ih =>
    intro db
    simp only [List.foldl_cons]
    rw [ih, applyUpdate, List.map_map]
    rfl

theorem rowApply_id : ∀ (ups : List (Nat × StoredClassification × Nat)) (r : DbRow),
    (rowApply ups r).id = r.id := by
  intro ups
  induction ups with
  | nil => intro r; rfl
  | cons u t ih =>
    intro r
    unfold rowApply
    rw [List.foldl_cons]
    by_cases h : r.id = u.1
    · rw [if_pos h]
      exact ih _
    · rw [if_neg h]
      exact ih r

theorem rowApply_not_mem (ups : List (Nat × StoredClassification × Nat)) :
    ∀ (r : DbRow), (∀ u ∈ ups, u.1 ≠ r.id) → rowApply ups r = r := by
  induction ups with
  | nil => intro r _; rfl
  | cons u t ih =>
    intro r h
    unfold rowApply
    rw [List.foldl_cons, if_neg (fun he => h u (by simp) he.symm)]
    exact ih r (fun q hq => h q (by simp [hq]))

theorem rowApply_mem (ups : List (Nat × StoredClassification × Nat)) :
    ∀ (r : DbRow) (P : StoredClassification) (c : Nat),
    (ups.map Prod.fst).Nodup → (r.id, P, c) ∈ ups →
    rowApply ups r = { r with parsed := P, image_count := c } := by
  induction ups with
  | nil => intro r P c _ hmem; cases hmem
  | cons u t ih =>
    intro r P c hnd hmem
    have hnd2 : (u.1 :: t.map Prod.fst).Nodup := by simpa using hnd
    have hnd' := List.nodup_cons.mp hnd2
    rcases List.mem_cons.mp hmem with heq | hmem'
    · have hu1 : u.1 = r.id := by rw [← heq]
      unfold rowApply
      rw [List.foldl_cons, if_pos hu1.symm]
      have hx : ({ r with parsed := u.2.1, image_count := u.2.2 } : DbRow) =
          { r with parsed := P, image_count := c } := by rw [← heq]
      rw [hx]
      apply rowApply_not_mem
      intro q hq he
      have he' : q.1 = r.id := he
      apply hnd'.1
      rw [← hu1] at he'
      rw [← he']
      exact List.mem_map_of_mem _ hq
    · by_cases hcase : r.id = u.1
      · exfalso
        apply hnd'.1
        have : r.id ∈ t.map Prod.fst := List.mem_map_of_mem _ hmem'
        rw [hcase] at this
        exact this
      · unfold rowApply
        rw [List.foldl_cons, if_neg hcase]
        exact ih r P c hnd'.2 hmem'

theorem find?_map_id_preserving (g : DbRow → DbRow) (hg : ∀ r, (g r).id = r.id) (k : Nat) :
    ∀ (db : List DbRow),
    (db.map g).find? (fun r => r.id = k) = (db.find? (fun r => r.id = k)).map g := by
  intro db
  induction db with
  | nil => rfl
  | cons r t ih =>
    simp only [List.map_cons]
    by_cases h : r.id = k
    · rw [List.find?_cons_of_pos _ (by simp [hg, h]), List.find?_cons_of_pos _ (by simp [h])]
      rfl
    · rw [List.find?_cons_of_neg _ (by simp [hg, h]), List.find?_cons_of_neg _ (by simp [h])]
      exact ih

theorem runUpdates_success (updOk : Nat → Bool) (sd : List ReviewSeries) :
    ∀ (mod : List Nat),
    (∀ i ∈ mod, i < sd.length) →
    (∀ i ∈ mod, updOk (seriesAt sd i).id = true) →
    runUpdates updOk sd mod = some
      (mod.map (fun i => ((seriesAt sd i).id, mkStored (seriesAt sd i),
        (seriesAt sd i).included_images.length)), mod.length) := by
  intro mod
  induction mod with
  | nil => intro _ _; rfl
  | cons i rest ih =>
    intro hv ho
    have hi : i < sd.length := hv i (by simp)
    have hget : sd.get? i = some (seriesAt sd i) := by
      unfold seriesAt
      rw [List.get?_eq_get hi]
      rfl
    show (match sd.get? i with
      | none => runUpdates updOk sd rest
      | some s =>
        if updOk s.id then
          match runUpdates updOk sd rest with
          | some (ups, n) => some ((s.id, mkStored s, s.included_images.length) :: ups, n + 1)
          | none => none
        else none) = _
    rw [hget]
    simp only [if_pos (ho i (by simp))]
    rw [ih (fun j hj => hv j (by simp [hj])) (fun j hj => ho j (by simp [hj]))]
    simp

/-- C4 counterexample: save is not independent across series.  Both
series are dirty; the update for series 11 raises after the update for
series 10 already executed.  The whole call rolls back: the database
keeps its old rows, so series 10's new classification is not persisted,
the dirty set is kept, and one global failure is reported instead of a
per-series report. -/
theorem save_changes_counterexample :
    (save_changes (fun n => n != 11) exSaveCtx).1.db = exOldDb ∧
    (save_changes (fun n => n != 11) exSaveCtx).1.modified = [0, 1] ∧
    (save_changes (fun n => n != 11) exSaveCtx).2 = SaveReport.failure ∧
    ((fun n => n != 11) 10 : Bool) = true ∧
    mkStored exSeriesTen ≠ exOldStored := by
  refine ⟨rfl, rfl, rfl, rfl, by decide⟩

/-- C4 amended: save_changes re-derives image_count from the included
length and serializes the four classification fields per dirty series,
but commits them all in one transaction: when every update executes, each
dirty series row receives its new classification and count, untouched
rows stay, the dirty set clears and one count is reported; when any
update fails the whole call reports one failure and leaves the database
and the dirty set exactly as they were, rolling back updates already
executed in the same call. -/
theorem save_changes_amended (updOk : Nat → Bool) (st : SaveCtx)
    (hvalid : ∀ i ∈ st.modified, i < st.series_data.length)
    (hids : (st.modified.map (fun i => (seriesAt st.series_data i).id)).Nodup) :
    ((∀ i ∈ st.modified, updOk (seriesAt st.series_data i).id = true) →
      (save_changes updOk st).1.modified = [] ∧
      (st.modified ≠ [] → (save_changes updOk st).2 = SaveReport.savedCount st.modified.length) ∧
      (∀ i ∈ st.modified,
        dbLookup (save_changes updOk st).1.db (seriesAt st.series_data i).id =
          (dbLookup st.db (seriesAt st.series_data i).id).map (fun r =>
            { r with parsed := mkStored (seriesAt st.series_data i),
                     image_count := (seriesAt st.series_data i).included_images.length })) ∧
      (∀ k : Nat, (∀ i ∈ st.modified, (seriesAt st.series_data i).id ≠ k) →
        dbLookup (save_changes updOk st).1.db k = dbLookup st.db k)) ∧
    ((save_changes updOk st).2 = SaveReport.failure →
      (save_changes updOk st).1.db = st.db ∧
      (save_changes updOk st).1.modified = st.modified) := by
  constructor
  · intro hok
    by_cases hmod : st.modified.isEmpty
    · have hmn : st.modified = [] := by
        cases hme : st.modified with
        | nil => rfl
        | cons a t => rw [hme] at hmod; cases hmod
      unfold save_changes
      rw [if_pos hmod]
      refine ⟨hmn, fun hne => absurd hmn hne, ?_, ?_⟩
      · intro i hi
        rw [hmn] at hi
        cases hi
      · intro k _
        rfl
    · have hrun := runUpdates_success updOk st.series_data st.modified hvalid hok
      have hupsfst : ((st.modified.map (fun i => ((seriesAt st.series_data i).id,
          mkStored (seriesAt st.series_data i),
          (seriesAt st.series_data i).included_images.length))).map Prod.fst).Nodup := by
        rw [List.map_map]
        exact hids
      unfold save_changes
      rw [if_neg hmod, hrun]
      refine ⟨rfl, fun _ => rfl, ?_, ?_⟩
      · intro i hi
        show dbLookup (List.foldl applyUpdate st.db _) _ = _
        rw [foldl_applyUpdate_eq_map]
        unfold dbLookup
        rw [find?_map_id_preserving _ (rowApply_id _) _ st.db]
        cases hf : st.db.find? (fun r => r.id = (seriesAt st.series_data i).id) with
        | none => rfl
        | some r =>
          have hrid : r.id = (seriesAt st.series_data i).id := by
            have := List.find?_some hf
            simpa using this
          simp only [Option.map_some']
          congr 1
          apply rowApply_mem _ r _ _ hupsfst
          rw [hrid]
          exact List.mem_map_of_mem _ hi
      · intro k hk
        show dbLookup (List.foldl applyUpdate st.db _) _ = _
        rw [foldl_applyUpdate_eq_map]
        unfold dbLookup
        rw [find?_map_id_preserving _ (rowApply_id _) _ st.db]
        cases hf : st.db.find? (fun r => r.id = k) with
        | none => rfl
        | some r =>
          have hrid : r.id = k := by
            have := List.find?_some hf
            simpa using this
          simp only [Option.map_some']
          congr 1
          apply rowApply_not_mem
          intro u hu
          rcases List.mem_map.mp hu with ⟨i, hi, hui⟩
          rw [← hui, hrid]
          exact hk i hi
  · intro hfail
    by_cases hmod : st.modified.isEmpty
    · unfold save_changes at hfail
      rw [if_pos hmod] at hfail
      cases hfail
    · cases hrun : runUpdates updOk st.series_data st.modified with
      | some pr =>
        unfold save_changes at hfail
        rw [if_neg hmod, hrun] at hfail
        cases pr with
        | mk ups n => cases hfail
      | none =>
        unfold save_changes
        rw [if_neg hmod, hrun]
        exact ⟨rfl, rfl⟩

/-- Witness for the amended C4 save at a concrete state with two dirty
series whose updates both succeed. -/
theorem save_changes_amended_witness :
    (∀ i ∈ exSaveCtx.modified, i < exSaveCtx.series_data.length) ∧
    (exSaveCtx.modified.map (fun i => (seriesAt exSaveCtx.series_data i).id)).Nodup ∧
    ((∀ i ∈ exSaveCtx.modified, (fun _ => true) (seriesAt exSaveCtx.series_data i).id = true) →
      (save_changes (fun _ => true) exSaveCtx).1.modified = [] ∧
      (exSaveCtx.modified ≠ [] →
        (save_changes (fun _ => true) exSaveCtx).2 = SaveReport.savedCount exSaveCtx.modified.length) ∧
      (∀ i ∈ exSaveCtx.modified,
        dbLookup (save_changes (fun _ => true) exSaveCtx).1.db (seriesAt exSaveCtx.series_data i).id =
          (dbLookup exSaveCtx.db (seriesAt exSaveCtx.series_data i).id).map (fun r =>
            { r with parsed := mkStored (seriesAt exSaveCtx.series_data i),
                     image_count := (seriesAt exSaveCtx.series_data i).included_images.length })) ∧
      (∀ k : Nat, (∀ i ∈ exSaveCtx.modified, (seriesAt exSaveCtx.series_data i).id ≠ k) →
        dbLookup (save_changes (fun _ => true) exSaveCtx).1.db k = dbLookup exSaveCtx.db k)) :=
  ⟨by decide, by decide, (save_changes_amended (fun _ => true) exSaveCtx (by decide) (by decide)).1⟩

theorem foldl_max_ge_init : ∀ (xs : List Int) (x : Int), x ≤ xs.foldl max x := by
  intro xs
  induction xs with
  | nil => intro x; exact le_refl x
  | cons y t ih =>
    intro x
    exact le_trans (le_max_left x y) (ih (max x y))

theorem foldl_max_ge_mem : ∀ (xs : List Int) (x o : Int), o ∈ xs → o ≤ xs.foldl max x := by
  intro xs
  induction xs with
  | nil => intro x o h; cases h
  | cons y t ih =>
    intro x o h
    rcases List.mem_cons.mp h with rfl | h'
    · exact le_trans (le_max_right x o) (foldl_max_ge_init t (max x o))
    · exact ih (max x y) o h'

theorem pyMaxD0_ge (l : List Int) (o : Int) (h : o ∈ l) : o ≤ pyMaxD0 l := by
  cases l with
  | nil => cases h
  | cons x xs =>
    rcases List.mem_cons.mp h with rfl | h'
    · exact foldl_max_ge_init xs o
    · exact foldl_max_ge_mem xs x o h'

theorem updateFirstOrder_map_path (l : List IncEntry) (f : Str) (o : Int) :
    (updateFirstOrder l f o).map (fun e => e.path) = l.map (fun e => e.path) := by
  induction l with
  | nil => rfl
  | cons e t ih =>
    unfold updateFirstOrder
    by_cases h : e.path = f
    · rw [if_pos h]
      rfl
    · rw [if_neg h]
      simp only [List.map_cons]
      rw [ih]

theorem updateFirst_single_perm :
    ∀ (t : List IncEntry) (g : Str) (x : Int) (eg : IncEntry),
    (t.filter (fun e => e.path = g)).head? = some eg →
    List.Perm (x :: t.map (fun e => e.order))
      (eg.order :: (updateFirstOrder t g x).map (fun e => e.order)) := by
  intro t
  induction t with
  | nil => intro g x eg h; cases h
  | cons y t' ih =>
    intro g x eg h
    by_cases hy : y.path = g
    · rw [List.filter_cons_of_pos (by simp [hy])] at h
      injection h with h
      subst h
      have hupd : updateFirstOrder (y :: t') g x = { y with order := x } :: t' := by
        simp only [updateFirstOrder]
        rw [if_pos hy]
      rw [hupd]
      simp only [List.map_cons]
      exact List.Perm.swap _ _ _
    · rw [List.filter_cons_of_neg (by simp [hy])] at h
      have hupd : updateFirstOrder (y :: t') g x = y :: updateFirstOrder t' g x := by
        simp only [updateFirstOrder]
        rw [if_neg hy]
      rw [hupd]
      simp only [List.map_cons]
      refine List.Perm.trans (List.Perm.swap _ _ _) ?_
      refine List.Perm.trans (List.Perm.cons _ (ih g x eg h)) ?_
      exact List.Perm.swap _ _ _

theorem updateFirst_swap_perm :
    ∀ (l : List IncEntry) (f g : Str) (ef eg : IncEntry), f ≠ g →
    (l.filter (fun e => e.path = f)).head? = some ef →
    (l.filter (fun e => e.path = g)).head? = some eg →
    List.Perm ((updateFirstOrder (updateFirstOrder l f eg.order) g ef.order).map (fun e => e.order))
      (l.map (fun e => e.order)) := by
  intro l
  induction l with
  | nil => intro f g ef eg _ hf _; cases hf
  | cons e t ih =>
    intro f g ef eg hfg hf hg
    by_cases hef : e.path = f
    · rw [List.filter_cons_of_pos (by simp [hef])] at hf
      injection hf with hf
      have heg : (t.filter (fun e => e.path = g)).head? = some eg := by
        rw [List.filter_cons_of_neg (by simp [hef, hfg])] at hg
        exact hg
      have hinner : updateFirstOrder (e :: t) f eg.order = { e with order := eg.order } :: t := by
        simp only [updateFirstOrder]
        rw [if_pos hef]
      have houter : updateFirstOrder ({ e with order := eg.order } :: t) g ef.order =
          { e with order := eg.order } :: updateFirstOrder t g ef.order := by
        simp only [updateFirstOrder]
        rw [if_neg (by intro hh; exact hfg (by rw [← hef]; exact hh))]
      rw [hinner, houter]
      simp only [List.map_cons]
      rw [hf]
      exact (updateFirst_single_perm t g ef.order eg heg).symm
    · by_cases heg : e.path = g
      · rw [List.filter_cons_of_pos (by simp [heg])] at hg
        injection hg with hg
        have hft : (t.filter (fun e => e.path = f)).head? = some ef := by
          rw [List.filter_cons_of_neg (by simp [hef])] at hf
          exact hf
        have hinner : updateFirstOrder (e :: t) f eg.order = e :: updateFirstOrder t f eg.order := by
          simp only [updateFirstOrder]
          rw [if_neg hef]
        have houter : updateFirstOrder (e :: updateFirstOrder t f eg.order) g ef.order =
            { e with order := ef.order } :: updateFirstOrder t f eg.order := by
          simp only [updateFirstOrder]
          rw [if_pos heg]
        rw [hinner, houter]
        simp only [List.map_cons]
        rw [hg]
        exact (updateFirst_single_perm t f eg.order ef hft).symm
      · have hft : (t.filter (fun e => e.path = f)).head? = some ef := by
          rw [List.filter_cons_of_neg (by simp [hef])] at hf
          exact hf
        have hgt : (t.filter (fun e => e.path = g)).head? = some eg := by
          rw [List.filter_cons_of_neg (by simp [heg])] at hg
          exact hg
        have hinner : updateFirstOrder (e :: t) f eg.order = e :: updateFirstOrder t f eg.order := by
          simp only [updateFirstOrder]
          rw [if_neg hef]
        have houter : updateFirstOrder (e :: updateFirstOrder t f eg.order) g ef.order =
            e :: updateFirstOrder (updateFirstOrder t f eg.order) g ef.order := by
          simp only [updateFirstOrder]
          rw [if_neg heg]
        rw [hinner, houter]
        simp only [List.map_cons]
        exact (ih f g ef eg hfg hft hgt).cons _

theorem editInvariant_toggle (f : Str) (st : EditState) (h : editInvariant st) :
    editInvariant (toggle_image_inclusion f st) := by
  obtain ⟨hp, ho, hpos⟩ := h
  unfold toggle_image_inclusion
  by_cases hmem : st.included.any (fun e => e.path = f) = true
  · rw [if_pos hmem]
    refine ⟨?_, ?_, ?_⟩
    · exact List.Nodup.sublist (List.Sublist.map _ (List.filter_sublist _)) hp
    · exact List.Nodup.sublist (List.Sublist.map _ (List.filter_sublist _)) ho
    · intro e he
      exact hpos e (List.mem_of_mem_filter he)
  · rw [if_neg hmem]
    have hnot : ∀ e ∈ st.included, e.path ≠ f := by
      intro e he hef
      exact hmem (List.any_eq_true.mpr ⟨e, he, by simp [hef]⟩)
    have hM : 0 ≤ pyMaxD0 (st.included.map (fun e => e.order)) := by
      rcases hinc : st.included.map (fun e => e.order) with _ | ⟨o0, os⟩
      · rw [hinc]
        simp [pyMaxD0]
      · have hmem0 : o0 ∈ st.included.map (fun e => e.order) := by rw [hinc]; simp
        rcases List.mem_map.mp hmem0 with ⟨e0, he0, ho0⟩
        have h0 : 0 < o0 := by rw [← ho0]; exact hpos e0 he0
        have hle : o0 ≤ pyMaxD0 (o0 :: os) := pyMaxD0_ge _ _ (by simp)
        rw [hinc]
        omega
    refine ⟨?_, ?_, ?_⟩
    · rw [List.map_append, List.nodup_append]
      refine ⟨hp, by simp, ?_⟩
      intro a ha hb
      simp only [List.map_cons, List.map_nil, List.mem_singleton] at hb
      rcases List.mem_map.mp ha with ⟨e, he, hae⟩
      exact hnot e he (by rw [hae, hb])
    · rw [List.map_append, List.nodup_append]
      refine ⟨ho, by simp, ?_⟩
      intro a ha hb
      simp only [List.map_cons, List.map_nil, List.mem_singleton] at hb
      rcases List.mem_map.mp ha with ⟨e, he, hae⟩
      have hle : e.order ≤ pyMaxD0 (st.included.map (fun e => e.order)) :=
        pyMaxD0_ge _ _ (List.mem_map_of_mem _ he)
      rw [hb] at hae
      omega
    · intro e he
      rcases List.mem_append.mp he with h1 | h2
      · exact hpos e h1
      · simp only [List.mem_singleton] at h2
        rw [h2]
        show 0 < pyMaxD0 (st.included.map (fun e => e.order)) + 1
        omega

theorem editInvariant_move (f g : Str) (st : EditState) (h : editInvariant st) :
    editInvariant (move_image f g st) := by
  obtain ⟨hp, ho, hpos⟩ := h
  unfold move_image
  by_cases hguard : (st.included.any (fun e => e.path = f) = true) ∧
      (st.included.any (fun e => e.path = g) = true)
  · rw [if_pos hguard]
    by_cases hfg : f = g
    · rw [if_pos hfg]
      exact ⟨hp, ho, hpos⟩
    · rw [if_neg hfg]
      cases hlf : lastOrderOf st.included f with
      | none => exact ⟨hp, ho, hpos⟩
      | some fo =>
        cases hlg : lastOrderOf st.included g with
        | none => exact ⟨hp, ho, hpos⟩
        | some go =>
          simp only
          obtain ⟨ef, hef_head, hef_ord⟩ :
              ∃ ef, (st.included.reverse.filter (fun e => e.path = f)).head? = some ef ∧
                ef.order = fo := by
            unfold lastOrderOf at hlf
            rw [List.getLast?_eq_head?_reverse, ← List.filter_reverse] at hlf
            rcases Option.map_eq_some'.mp hlf with ⟨ef, h1, h2⟩
            exact ⟨ef, h1, h2⟩
          obtain ⟨eg, heg_head, heg_ord⟩ :
              ∃ eg, (st.included.reverse.filter (fun e => e.path = g)).head? = some eg ∧
                eg.order = go := by
            unfold lastOrderOf at hlg
            rw [List.getLast?_eq_head?_reverse, ← List.filter_reverse] at hlg
            rcases Option.map_eq_some'.mp hlg with ⟨eg, h1, h2⟩
            exact ⟨eg, h1, h2⟩
          have hform : updateLastOrder (updateLastOrder st.included f go) g fo =
              (updateFirstOrder (updateFirstOrder st.included.reverse f go) g fo).reverse := by
            unfold updateLastOrder
            rw [List.reverse_reverse]
          have hperm0 := updateFirst_swap_perm st.included.reverse f g ef eg hfg hef_head heg_head
          rw [hef_ord, heg_ord] at hperm0
          have hordperm : List.Perm
              ((updateLastOrder (updateLastOrder st.included f go) g fo).map (fun e => e.order))
              (st.included.map (fun e => e.order)) := by
            rw [hform, List.map_reverse]
            refine (List.reverse_perm _).trans ?_
            refine hperm0.trans ?_
            rw [List.map_reverse]
            exact List.reverse_perm _
          have hpath : (updateLastOrder (updateLastOrder st.included f go) g fo).map
              (fun e => e.path) = st.included.map (fun e => e.path) := by
            rw [hform, List.map_reverse, updateFirstOrder_map_path, updateFirstOrder_map_path,
              List.map_reverse, List.reverse_reverse]
          refine ⟨?_, ?_, ?_⟩
          · rw [hpath]
            exact hp
          · exact (hordperm.nodup_iff).mpr ho
          · intro e he
            have hmem : e.order ∈ st.included.map (fun e => e.order) :=
              (hordperm.mem_iff).mp (List.mem_map_of_mem _ he)
            rcases List.mem_map.mp hmem with ⟨e', he', horde⟩
            rw [← horde]
            exact hpos e' he'
  · rw [if_neg hguard]
    exact ⟨hp, ho, hpos⟩

theorem applyOps_invariant : ∀ (ops : List EditOp) (st : EditState),
    editInvariant st → editInvariant (applyOps ops st) := by
  intro ops
  induction ops with
  | nil => intro st h; exact h
  | cons op rest ih =>
    intro st h
    show editInvariant (applyOps rest (applyOp st op))
    apply ih
    cases op with
    | toggle f => exact editInvariant_toggle f st h
    | move f g => exact editInvariant_move f g st h

/-- C5 counterexample: one toggle already leaves the included orders
outside 1..N.  Starting from two included images with orders exactly one
and two, toggling the first off leaves a single included image whose
order is two, not one: the orders are no longer a strictly increasing
permutation of 1..N for the new length. -/
theorem edit_invariant_counterexample :
    (exEditTwo.included.map (fun e => e.path)).Nodup ∧
    ordersAreOneToN exEditTwo ∧
    applyOps [EditOp.toggle "a.jpg".toList] exEditTwo =
      { included := [{ path := "b.jpg".toList, order := 2 }], excluded := ["a.jpg".toList] } ∧
    ¬ ordersAreOneToN
      { included := [{ path := "b.jpg".toList, order := 2 }], excluded := ["a.jpg".toList] } :=
  ⟨by decide, by decide, by decide, by decide⟩

/-- C5 amended: starting from an edit session whose included list has
distinct filenames and order values exactly 1..N, after any finite
sequence of toggle and reorder gestures the included list still has no
duplicate filename, and its order values are pairwise distinct positive
integers (they need not remain the contiguous range 1..N: a toggle off
removes an order without renumbering, and a toggle on appends max plus
one). -/
theorem edit_ops_invariant (ops : List EditOp) (st : EditState)
    (hpath : (st.included.map (fun e => e.path)).Nodup)
    (hord : ordersAreOneToN st) :
    editInvariant (applyOps ops st) := by
  apply applyOps_invariant
  refine ⟨hpath, ?_, ?_⟩
  · unfold ordersAreOneToN at hord
    rw [hord]
    have hinj : Function.Injective (fun i : Nat => (i : Int) + 1) := by
      intro a b hab
      have hab' : (a : Int) + 1 = (b : Int) + 1 := hab
      omega
    exact List.Nodup.map hinj (List.nodup_range _)
  · intro e he
    have hmem : e.order ∈ st.included.map (fun e => e.order) := List.mem_map_of_mem _ he
    unfold ordersAreOneToN at hord
    rw [hord] at hmem
    rcases List.mem_map.mp hmem with ⟨i, _, hio⟩
    have hio' : (i : Int) + 1 = e.order := hio
    omega

/-- Witness for the amended C5 invariant after a toggle of a new image
and a reorder of the two original images. -/
theorem edit_ops_invariant_witness :
    (exEditTwo.included.map (fun e => e.path)).Nodup ∧
    ordersAreOneToN exEditTwo ∧
    editInvariant (applyOps
      [EditOp.toggle "c.jpg".toList, EditOp.move "a.jpg".toList "b.jpg".toList] exEditTwo) :=
  ⟨by decide, by decide, edit_ops_invariant _ _ (by decide) (by decide)⟩

/-- C7 counterexample: patterns 1 and 2 are not mutually exclusive and
the first match does not win.  This filename matches pattern 1, whose key
would end in DN_series, yet its cluster key is determined by pattern 2,
because the code lets a pattern 2 match overwrite the pattern 1 result. -/
theorem pattern_priority_counterexample :
    (reMatch pattern1 exNameBoth).isSome = true ∧
    (reMatch pattern2 exNameBoth).isSome = true ∧
    ((getGroup ((reMatch pattern1 exNameBoth).getD []) 1).getD []) ++ "DN_series".toList =
      "2025_01_01_01_01_01_uDN_series".toList ∧
    clusterKey exNameBoth = "2025_01_01_01_01_01_uDN__1.b".toList ∧
    "2025_01_01_01_01_01_uDN__1.b".toList ≠ "2025_01_01_01_01_01_uDN_series".toList := by
  refine ⟨by decide, by decide, by decide, by decide, by decide⟩

/-- C7 amended: the cluster key is decided by the first matching pattern
in the priority order (2), (1), (3), (4): pattern 2 overrides pattern 1
whenever both match, pattern 1 applies only when pattern 2 does not
match, the generic pattern 3 only when neither does, and otherwise the
key is the filename without its extension. -/
theorem cluster_key_priority (filename : Str) :
    (∀ g, reMatch pattern2 filename = some g →
      clusterKey filename =
        ((getGroup g 1).getD []) ++ "DN_".toList ++ ((getGroup g 2).getD [])) ∧
    (reMatch pattern2 filename = none → ∀ g, reMatch pattern1 filename = some g →
      clusterKey filename = ((getGroup g 1).getD []) ++ "DN_series".toList) ∧
    (reMatch pattern2 filename = none → reMatch pattern1 filename = none →
      ∀ g, reMatch pattern3 filename = some g →
      clusterKey filename = (getGroup g 1).getD []) ∧
    (reMatch pattern2 filename = none → reMatch pattern1 filename = none →
      reMatch pattern3 filename = none →
      clusterKey filename = pyJoin '.' (pySplit '.' filename).dropLast) := by
  refine ⟨?_, ?_, ?_, ?_⟩
  · intro g h2
    unfold clusterKey baseNameOf
    rw [h2]
  · intro h2 g h1
    unfold clusterKey baseNameOf
    rw [h2, h1]
  · intro h2 h1 g h3
    unfold clusterKey baseNameOf
    rw [h2, h1, h3]
  · intro h2 h1 h3
    unfold clusterKey baseNameOf
    rw [h2, h1, h3]

/-- Witness for the amended C7 priority at four concrete filenames, one
per branch: pattern 2 (even though pattern 1 also matches), pattern 1
alone, pattern 3 alone, and the no-pattern fallback. -/
theorem cluster_key_priority_witness :
    (reMatch pattern2 exNameBoth = some ((reMatch pattern2 exNameBoth).getD []) ∧
      clusterKey exNameBoth =
        ((getGroup ((reMatch pattern2 exNameBoth).getD []) 1).getD []) ++ "DN_".toList ++
          ((getGroup ((reMatch pattern2 exNameBoth).getD []) 2).getD [])) ∧
    (reMatch pattern2 exNameSess = none ∧
      reMatch pattern1 exNameSess = some ((reMatch pattern1 exNameSess).getD []) ∧
      clusterKey exNameSess =
        ((getGroup ((reMatch pattern1 exNameSess).getD []) 1).getD []) ++ "DN_series".toList) ∧
    (reMatch pattern2 exNameGeneric = none ∧ reMatch pattern1 exNameGeneric = none ∧
      reMatch pattern3 exNameGeneric = some ((reMatch pattern3 exNameGeneric).getD []) ∧
      clusterKey exNameGeneric = (getGroup ((reMatch pattern3 exNameGeneric).getD []) 1).getD []) ∧
    (reMatch pattern2 exNamePlain = none ∧ reMatch pattern1 exNamePlain = none ∧
      reMatch pattern3 exNamePlain = none ∧
      clusterKey exNamePlain = pyJoin '.' (pySplit '.' exNamePlain).dropLast) := by
  refine ⟨⟨by decide, (cluster_key_priority exNameBoth).1 _ (by decide)⟩,
    ⟨by decide, by decide, (cluster_key_priority exNameSess).2.1 (by decide) _ (by decide)⟩,
    ⟨by decide, by decide, by decide,
      (cluster_key_priority exNameGeneric).2.2.1 (by decide) (by decide) _ (by decide)⟩,
    ⟨by decide, by decide, by decide,
      (cluster_key_priority exNamePlain).2.2.2 (by decide) (by decide) (by decide)⟩⟩

theorem assocAppend_lookup (acc : List (Str × List Str)) (k' : Str) (p : Str) (k : Str) :
    assocLookup (assocAppend acc k' p) k =
      if k = k' then some ((assocLookup acc k).getD [] ++ [p]) else assocLookup acc k := by
  induction acc with
  | nil =>
    by_cases h : k = k'
    · simp [assocAppend, assocLookup, h]
    · simp only [assocAppend, assocLookup]
      rw [if_neg (fun he => h he.symm), if_neg h]
  | cons kv t ih =>
    obtain ⟨k0, v⟩ := kv
    by_cases h0 : k0 = k'
    · have happ : assocAppend ((k0, v) :: t) k' p = (k0, v ++ [p]) :: t := by
        simp only [assocAppend]
        rw [if_pos h0]
      rw [happ]
      by_cases hk : k0 = k
      · have hkk' : k = k' := by rw [← hk, h0]
        simp only [assocLookup]
        rw [if_pos hk, if_pos hk, if_pos hkk']
        simp
      · simp only [assocLookup]
        rw [if_neg hk, if_neg hk, if_neg (fun he : k = k' => hk (by rw [h0, ← he]))]
    · have happ : assocAppend ((k0, v) :: t) k' p = (k0, v) :: assocAppend t k' p := by
        simp only [assocAppend]
        rw [if_neg h0]
      rw [happ]
      by_cases hk : k0 = k
      · have hne : ¬(k = k') := fun he => h0 (by rw [hk, he])
        simp only [assocLookup]
        rw [if_pos hk, if_pos hk, if_neg hne]
      · simp only [assocLookup]
        rw [if_neg hk, if_neg hk]
        exact ih

theorem grouped_lookup :
    ∀ (l : List Str) (acc : List (Str × List Str)) (k : Str),
    assocLookup (l.foldl (fun acc p => assocAppend acc (clusterKey (pyBasename p)) p) acc) k =
      (match assocLookup acc k with
       | some v => some (v ++ l.filter (fun p => clusterKey (pyBasename p) = k))
       | none =>
         if l.filter (fun p => clusterKey (pyBasename p) = k) = [] then none
         else some (l.filter (fun p => clusterKey (pyBasename p) = k))) := by
  intro l
  induction l with
  | nil =>
    intro acc k
    cases h : assocLookup acc k <;> simp [h]
  | cons p t ih =>
    intro acc k
    simp only [List.foldl_cons]
    rw [ih]
    rw [assocAppend_lookup]
    by_cases hk : k = clusterKey (pyBasename p)
    · rw [if_pos hk]
      rw [List.filter_cons_of_pos (by simp [hk])]
      cases h : assocLookup acc k with
      | some v => simp [h]
      | none => simp [h]
    · rw [if_neg hk]
      rw [List.filter_cons_of_neg (by simp; intro he; exact hk he.symm)]

theorem assocAppend_keys (acc : List (Str × List Str)) (k' : Str) (p : Str) :
    (assocAppend acc k' p).map Prod.fst =
      if k' ∈ acc.map Prod.fst then acc.map Prod.fst else acc.map Prod.fst ++ [k'] := by
  induction acc with
  | nil => simp [assocAppend]
  | cons kv t ih =>
    obtain ⟨k0, v⟩ := kv
    by_cases h0 : k0 = k'
    · have happ : assocAppend ((k0, v) :: t) k' p = (k0, v ++ [p]) :: t := by
        simp only [assocAppend]
        rw [if_pos h0]
      rw [happ]
      simp [h0]
    · have happ : assocAppend ((k0, v) :: t) k' p = (k0, v) :: assocAppend t k' p := by
        simp only [assocAppend]
        rw [if_neg h0]
      rw [happ]
      simp only [List.map_cons, List.mem_cons]
      rw [ih]
      by_cases hmem : k' ∈ t.map Prod.fst
      · rw [if_pos hmem, if_pos (Or.inr hmem)]
      · rw [if_neg hmem, if_neg (by rintro (he | hm); exact h0 he.symm; exact hmem hm)]
        rfl

theorem grouped_keys_nodup :
    ∀ (l : List Str) (acc : List (Str × List Str)), (acc.map Prod.fst).Nodup →
    ((l.foldl (fun acc p => assocAppend acc (clusterKey (pyBasename p)) p) acc).map Prod.fst).Nodup := by
  intro l
  induction l with
  | nil => intro acc h; exact h
  | cons p t ih =>
    intro acc h
    simp only [List.foldl_cons]
    apply ih
    rw [assocAppend_keys]
    by_cases hmem : clusterKey (pyBasename p) ∈ acc.map Prod.fst
    · rw [if_pos hmem]
      exact h
    · rw [if_neg hmem]
      rw [List.nodup_append]
      exact ⟨h, by simp, by intro a ha hb; simp only [List.mem_singleton] at hb; rw [hb] at ha; exact hmem ha⟩

theorem assocLookup_eq_none (m : List (Str × List Str)) (k : Str)
    (h : ∀ kv ∈ m, kv.1 ≠ k) : assocLookup m k = none := by
  induction m with
  | nil => rfl
  | cons kv t ih =>
    simp only [assocLookup]
    rw [if_neg (h kv (by simp))]
    exact ih (fun q hq => h q (by simp [hq]))

theorem lookup_sorted_filtered :
    ∀ (m : List (Str × List Str)) (k : Str), (m.map Prod.fst).Nodup →
    assocLookup ((m.filter (fun kv => kv.2.length > 1)).map
        (fun kv => (kv.1, pySortByKey extract_number kv.2))) k =
      (match assocLookup m k with
       | some v => if v.length > 1 then some (pySortByKey extract_number v) else none
       | none => none) := by
  intro m
  induction m with
  | nil => intro k _; rfl
  | cons kv t ih =>
    intro k hnd
    obtain ⟨k0, v⟩ := kv
    have hnd' : (t.map Prod.fst).Nodup := (List.nodup_cons.mp (by simpa using hnd)).2
    have hk0 : k0 ∉ t.map Prod.fst := (List.nodup_cons.mp (by simpa using hnd)).1
    by_cases hlen : v.length > 1
    · rw [List.filter_cons_of_pos (by simpa using hlen)]
      simp only [List.map_cons]
      by_cases hk : k0 = k
      · simp only [assocLookup]
        rw [if_pos hk, if_pos hk]
        simp [hlen]
      · simp only [assocLookup]
        rw [if_neg hk, if_neg hk]
        exact ih k hnd'
    · rw [List.filter_cons_of_neg (by simpa using hlen)]
      by_cases hk : k0 = k
      · have hnone : assocLookup ((t.filter (fun kv => kv.2.length > 1)).map
            (fun kv => (kv.1, pySortByKey extract_number kv.2))) k = none := by
          apply assocLookup_eq_none
          intro q hq
          rcases List.mem_map.mp hq with ⟨q', hq', hqq⟩
          have : q'.1 ∈ t.map Prod.fst := List.mem_map_of_mem _ (List.mem_of_mem_filter hq')
          intro he
          rw [← hqq] at he
          rw [he, ← hk] at this
          exact hk0 this
        rw [hnone]
        simp only [assocLookup]
        rw [if_pos hk]
        simp [hlen]
      · simp only [assocLookup]
        rw [if_neg hk]
        exact ih k hnd'

theorem insSorted_perm (key : α → Nat) (a : α) :
    ∀ (l : List α), List.Perm (insSorted key a l) (a :: l) := by
  intro l
  induction l with
  | nil => exact List.Perm.refl _
  | cons b bs ih =>
    unfold insSorted
    by_cases h : key a < key b
    · rw [if_pos h]
    · rw [if_neg h]
      refine List.Perm.trans (List.Perm.cons _ ih) ?_
      exact List.Perm.swap _ _ _

theorem pySortByKey_perm_aux (key : α → Nat) :
    ∀ (l acc : List α),
    List.Perm (l.foldl (fun acc a => insSorted key a acc) acc) (acc ++ l) := by
  intro l
  induction l with
  | nil => intro acc; simp
  | cons a t ih =>
    intro acc
    simp only [List.foldl_cons]
    refine List.Perm.trans (ih (insSorted key a acc)) ?_
    refine List.Perm.trans (List.Perm.append_right t (insSorted_perm key a acc)) ?_
    simp only [List.cons_append]
    exact (List.perm_middle).symm

theorem pySortByKey_perm (key : α → Nat) (l : List α) :
    List.Perm (pySortByKey key l) l := by
  unfold pySortByKey
  simpa using pySortByKey_perm_aux key l []

theorem insSorted_pairwise (key : α → Nat) (a : α) :
    ∀ (l : List α), List.Pairwise (fun x y => key x ≤ key y) l →
    List.Pairwise (fun x y => key x ≤ key y) (insSorted key a l) := by
  intro l
  induction l with
  | nil => intro _; simp [insSorted]
  | cons b bs ih =>
    intro h
    rcases List.pairwise_cons.mp h with ⟨hb, hbs⟩
    unfold insSorted
    by_cases hab : key a < key b
    · rw [if_pos hab]
      refine List.pairwise_cons.mpr ⟨?_, h⟩
      intro x hx
      rcases List.mem_cons.mp hx with rfl | hx'
      · exact le_of_lt hab
      · exact le_trans (le_of_lt hab) (hb x hx')
    · rw [if_neg hab]
      refine List.pairwise_cons.mpr ⟨?_, ih hbs⟩
      intro x hx
      have hx' : x ∈ a :: bs := (insSorted_perm key a bs).mem_iff.mp hx
      rcases List.mem_cons.mp hx' with rfl | hx''
      · exact le_of_not_lt hab
      · exact hb x hx''

theorem pySortByKey_pairwise_aux (key : α → Nat) :
    ∀ (l acc : List α), List.Pairwise (fun x y => key x ≤ key y) acc →
    List.Pairwise (fun x y => key x ≤ key y) (l.foldl (fun acc a => insSorted key a acc) acc) := by
  intro l
  induction l with
  | nil => intro acc h; exact h
  | cons a t ih =>
    intro acc h
    simp only [List.foldl_cons]
    exact ih _ (insSorted_pairwise key a acc h)

theorem pySortByKey_pairwise (key : α → Nat) (l : List α) :
    List.Pairwise (fun x y => key x ≤ key y) (pySortByKey key l) :=
  pySortByKey_pairwise_aux key l [] (by simp)

theorem sorted_strict_of_nodup_keys (key : α → Nat) (l : List α)
    (hs : List.Pairwise (fun x y => key x ≤ key y) l)
    (hnd : (l.map key).Nodup) :
    List.Pairwise (fun x y => key x < key y) l := by
  have hne : List.Pairwise (fun x y => key x ≠ key y) l :=
    (List.pairwise_map.mp hnd)
  exact (hs.and hne).imp (fun h => lt_of_le_of_ne h.1 h.2)

theorem sortByKey_eq_of_perm (key : α → Nat) (l1 l2 : List α)
    (hperm : List.Perm l1 l2) (hnd : (l1.map key).Nodup) :
    pySortByKey key l1 = pySortByKey key l2 := by
  have hp : List.Perm (pySortByKey key l1) (pySortByKey key l2) :=
    ((pySortByKey_perm key l1).trans hperm).trans (pySortByKey_perm key l2).symm
  have hnd1 : ((pySortByKey key l1).map key).Nodup := by
    refine (List.Perm.nodup_iff ?_).mpr hnd
    exact (pySortByKey_perm key l1).map key
  have hnd2 : ((pySortByKey key l2).map key).Nodup := by
    refine (List.Perm.nodup_iff ?_).mpr hnd1
    exact hp.symm.map key
  have hs1 := sorted_strict_of_nodup_keys key _ (pySortByKey_pairwise key l1) hnd1
  have hs2 := sorted_strict_of_nodup_keys key _ (pySortByKey_pairwise key l2) hnd2
  haveI : IsAntisymm α (fun x y => key x < key y) :=
    ⟨fun a b h1 h2 => absurd (lt_trans h1 h2) (lt_irrefl _)⟩
  exact List.eq_of_perm_of_sorted hp hs1 hs2

theorem clusterOf_spec (l : List Str) (k : Str) :
    clusterOf l k =
      if 1 < (l.filter (fun p => clusterKey (pyBasename p) = k)).length
      then some (pySortByKey extract_number (l.filter (fun p => clusterKey (pyBasename p) = k)))
      else none := by
  unfold clusterOf find_image_series_core
  rw [lookup_sorted_filtered _ k (grouped_keys_nodup l [] (by simp))]
  by_cases hemp : l.filter (fun p => clusterKey (pyBasename p) = k) = []
  · have h1 : assocLookup (l.foldl
        (fun acc p => assocAppend acc (clusterKey (pyBasename p)) p) []) k = none := by
      rw [grouped_lookup l [] k]
      simp only [assocLookup]
      rw [if_pos hemp]
    rw [h1]
    rw [if_neg (by rw [hemp]; simp)]
  · have h1 : assocLookup (l.foldl
        (fun acc p => assocAppend acc (clusterKey (pyBasename p)) p) []) k =
        some (l.filter (fun p => clusterKey (pyBasename p) = k)) := by
      rw [grouped_lookup l [] k]
      simp only [assocLookup]
      rw [if_neg hemp]
    rw [h1]

/-- C8 counterexample: clustering is not input-order-independent when two
members of a cluster share the same extracted numeric suffix.  The files
x_01.jpg and x_1.jpg both have suffix 1 and cluster key x; listing them
in the two possible orders produces two different ordered member lists,
because Python sorted is stable and breaks the tie by discovery order. -/
theorem cluster_tie_counterexample :
    List.Perm (["x_01.jpg".toList, "x_1.jpg".toList] : List Str)
      ["x_1.jpg".toList, "x_01.jpg".toList] ∧
    extract_number "x_01.jpg".toList = extract_number "x_1.jpg".toList ∧
    clusterOf ["x_01.jpg".toList, "x_1.jpg".toList] "x".toList =
      some ["x_01.jpg".toList, "x_1.jpg".toList] ∧
    clusterOf ["x_1.jpg".toList, "x_01.jpg".toList] "x".toList =
      some ["x_1.jpg".toList, "x_01.jpg".toList] ∧
    (["x_01.jpg".toList, "x_1.jpg".toList] : List Str) ≠
      ["x_1.jpg".toList, "x_01.jpg".toList] := by
  refine ⟨by decide, by decide, by decide, by decide, by decide⟩

/-- C8 amended: clustering of a fixed listing is a pure function of the
listing, and it is input-order-independent whenever the extracted numeric
suffixes inside each cluster are pairwise distinct: for any permutation
of the listing, every cluster key maps to the same ordered member list.
With ties the member order follows discovery order instead. -/
theorem cluster_permutation_invariant (l1 l2 : List Str) (hperm : List.Perm l1 l2)
    (hdist : ∀ k ∈ l1.map (fun p => clusterKey (pyBasename p)),
      ((l1.filter (fun p => clusterKey (pyBasename p) = k)).map extract_number).Nodup) :
    ∀ k : Str, clusterOf l1 k = clusterOf l2 k := by
  intro k
  rw [clusterOf_spec, clusterOf_spec]
  have hpf : List.Perm (l1.filter (fun p => clusterKey (pyBasename p) = k))
      (l2.filter (fun p => clusterKey (pyBasename p) = k)) := hperm.filter _
  have hlen := hpf.length_eq
  have hnd : ((l1.filter (fun p => clusterKey (pyBasename p) = k)).map extract_number).Nodup := by
    by_cases hmem : k ∈ l1.map (fun p => clusterKey (pyBasename p))
    · exact hdist k hmem
    · have hnil : l1.filter (fun p => clusterKey (pyBasename p) = k) = [] := by
        rw [List.filter_eq_nil]
        intro p hp hkey
        exact hmem (List.mem_map.mpr ⟨p, hp, by simpa using hkey⟩)
      rw [hnil]
      simp
  by_cases hl : 1 < (l1.filter (fun p => clusterKey (pyBasename p) = k)).length
  · rw [if_pos hl, if_pos (by rw [← hlen]; exact hl)]
    congr 1
    exact sortByKey_eq_of_perm extract_number _ _ hpf hnd
  · rw [if_neg hl, if_neg (by rw [← hlen]; exact hl)]

/-- Witness for the amended C8 invariance at a concrete listing of two
cluster members with distinct suffixes plus an unclustered file, against
a nontrivial permutation of it. -/
theorem cluster_permutation_invariant_witness :
    List.Perm (["y_1.jpg".toList, "y_2.jpg".toList, "z.png".toList] : List Str)
      ["z.png".toList, "y_2.jpg".toList, "y_1.jpg".toList] ∧
    (∀ k ∈ (["y_1.jpg".toList, "y_2.jpg".toList, "z.png".toList] : List Str).map
        (fun p => clusterKey (pyBasename p)),
      (((["y_1.jpg".toList, "y_2.jpg".toList, "z.png".toList] : List Str).filter
        (fun p => clusterKey (pyBasename p) = k)).map extract_number).Nodup) ∧
    ∀ k : Str, clusterOf ["y_1.jpg".toList, "y_2.jpg".toList, "z.png".toList] k =
      clusterOf ["z.png".toList, "y_2.jpg".toList, "y_1.jpg".toList] k :=
  ⟨by decide, by decide, cluster_permutation_invariant _ _ (by decide) (by decide)⟩

/-- C10: when the maintenance sweep finds at least one missing backing
file, after it commits every remaining series row is referenced by at
least one remaining series_images row, and every series row without any
surviving reference is removed, which includes every series stored with
is_series false, since save_series_to_db inserts image rows only for
positive classifications; when nothing is missing, no series row is
removed at all. -/
theorem clean_missing_images_spec (fileExists : Str → Bool) (st : Store) :
    ((∃ r ∈ st.series_images, fileExists r.image_path = false) →
      (∀ s ∈ (clean_missing_images fileExists st).series,
        ∃ r ∈ (clean_missing_images fileExists st).series_images, r.series_id = some s.id) ∧
      (∀ s ∈ st.series,
        (∀ r ∈ st.series_images, fileExists r.image_path = true → r.series_id ≠ some s.id) →
        s ∉ (clean_missing_images fileExists st).series)) ∧
    ((∀ r ∈ st.series_images, fileExists r.image_path = true) →
      (clean_missing_images fileExists st).series = st.series) ∧
    (∀ (newId : Nat) (parsed : DetResponse), parsed.is_series = false →
      (save_series_to_db st newId parsed).series_images = st.series_images) := by
  refine ⟨?_, ?_, ?_⟩
  · intro hmiss
    have hany : st.series_images.any (fun r => !fileExists r.image_path) = true := by
      rcases hmiss with ⟨r, hr, hfe⟩
      exact List.any_eq_true.mpr ⟨r, hr, by simp [hfe]⟩
    constructor
    · intro s hs
      unfold clean_missing_images at hs ⊢
      rw [if_pos hany] at hs ⊢
      simp only at hs ⊢
      have hcond := List.of_mem_filter hs
      rcases (by simpa using hcond :
          ∃ x ∈ st.series_images, fileExists x.image_path = true ∧ x.series_id = some s.id)
        with ⟨r, hr, hfe, hrs⟩
      exact ⟨r, List.mem_filter.mpr ⟨hr, by simp [hfe]⟩, hrs⟩
    · intro s hs hnoref hmem
      unfold clean_missing_images at hmem
      rw [if_pos hany] at hmem
      simp only at hmem
      have hcond := List.of_mem_filter hmem
      rcases (by simpa using hcond :
          ∃ x ∈ st.series_images, fileExists x.image_path = true ∧ x.series_id = some s.id)
        with ⟨r, hr, hfe, hrs⟩
      exact hnoref r hr hfe hrs
  · intro hok
    have hany : st.series_images.any (fun r => !fileExists r.image_path) = false := by
      rw [List.any_eq_false]
      intro r hr
      simp [hok r hr]
    unfold clean_missing_images
    rw [if_neg (by rw [hany]; simp)]
  · intro newId parsed hneg
    unfold save_series_to_db
    rw [if_neg (by rw [hneg]; simp)]
    simp

/-- Witness for the C10 sweep at a concrete store in which one backing
file of the positive series is missing: the negative series, which has
no image rows, is removed along with the dangling reference, and every
surviving series still has a reference. -/
theorem clean_missing_images_spec_witness :
    (∃ r ∈ exStoreTwo.series_images, exFE r.image_path = false) ∧
    ((∀ s ∈ (clean_missing_images exFE exStoreTwo).series,
        ∃ r ∈ (clean_missing_images exFE exStoreTwo).series_images, r.series_id = some s.id) ∧
      (∀ s ∈ exStoreTwo.series,
        (∀ r ∈ exStoreTwo.series_images, exFE r.image_path = true → r.series_id ≠ some s.id) →
        s ∉ (clean_missing_images exFE exStoreTwo).series)) :=
  ⟨⟨{ series_id := some 1, image_path := "p2".toList, order_in_series := 2 },
    by decide, by decide⟩,
   (clean_missing_images_spec exFE exStoreTwo).1
     ⟨{ series_id := some 1, image_path := "p2".toList, order_in_series := 2 },
      by decide, by decide⟩⟩
